import Mathlib

/-!
# chaindbg: rendering of netdevice / inetaddr notifier events

A shallow embedding of `chaindbg.c`.  C strings are modelled by the list of
their characters before the terminating NUL, `char *[]` tables by lists of
optional names (`none` is the `NULL` slot), and the kernel log by the list of
messages handed to `printk`.
-/

namespace Chaindbg

/-! ## Library model: `snprintf` and the conversions used by the formats -/

/-- Buffer content after `snprintf(buf, buflen, fmt, ...)` when the complete
formatted output is `out` and the buffer held `old` before the call: nothing is
written for a size that is not positive, otherwise the first `buflen - 1`
characters of `out` followed by the NUL. -/
def snprintf (old : List Char) (buflen : Int) (out : List Char) : List Char :=
  if buflen ≤ 0 then old else out.take (buflen - 1).toNat

/-- Conversion `%s`: the characters of the string; the kernel prints `(null)`
for a `NULL` pointer. -/
def fmt_s : Option String → List Char
  | none => "(null)".toList
  | some s => s.toList

/-- Conversion `%x` of an `unsigned int` argument. -/
def fmt_x (v : Nat) : List Char := Nat.toDigits 16 (v % 2 ^ 32)

/-- Conversion `%lx` of an `unsigned long` argument (64-bit). -/
def fmt_lx (v : Nat) : List Char := Nat.toDigits 16 (v % 2 ^ 64)

/-- Conversion `%llx` of an `unsigned long long` argument. -/
def fmt_llx (v : Nat) : List Char := Nat.toDigits 16 (v % 2 ^ 64)

/-- Conversion `%d`: the argument read as a 32-bit `int`, in decimal. -/
def fmt_d (v : Int) : List Char :=
  let w := (v % 2 ^ 32).toNat
  if w < 2 ^ 31 then Nat.toDigits 10 w else '-' :: Nat.toDigits 10 (2 ^ 32 - w)

/-- Two lower-case hexadecimal digits of a byte. -/
def hex_byte (b : Nat) : List Char :=
  [Nat.digitChar (b / 16 % 16), Nat.digitChar (b % 16)]

/-- Byte `i` of a byte array (a missing byte reads as 0). -/
def byte_at (a : List Nat) (i : Nat) : Nat := a.getD i 0 % 256

/-- Conversion `%pM`: six bytes as `xx:xx:xx:xx:xx:xx`. -/
def fmt_pM (a : List Nat) : List Char :=
  [':'].intercalate ((List.range 6).map fun i => hex_byte (byte_at a i))

/-- Conversion `%pI4`: four bytes in network order as dotted decimal. -/
def fmt_pI4 (a : List Nat) : List Char :=
  ['.'].intercalate ((List.range 4).map fun i => Nat.toDigits 10 (byte_at a i))

/-- Conversion `%pI6`: sixteen bytes as eight colon-separated groups of four
hexadecimal digits. -/
def fmt_pI6 (a : List Nat) : List Char :=
  [':'].intercalate ((List.range 8).map fun i =>
    hex_byte (byte_at a (2 * i)) ++ hex_byte (byte_at a (2 * i + 1)))

/-! ## `cdbg_get_strings` -/

/-- Value of an `int` converted to `size_t` (64-bit). -/
def to_size_t (v : Int) : Nat := (v % 2 ^ 64).toNat

/-- Body of the `for` loop of `cdbg_get_strings`: `n` iterations remain, `i` is
the loop counter.  `none` is a read past the end of the array `strings`. -/
def cdbg_get_strings_loop (bits : Nat) (strings : List (Option String)) (buflen : Int) :
    Nat → Nat → List Char → Option (List Char)
  | 0, _, buf => some buf
  | n + 1, i, buf =>
    match strings[i]? with
    | none => none
    | some none => some buf
    | some (some s) =>
      cdbg_get_strings_loop bits strings buflen n (i + 1)
        (if (bits >>> i) &&& 1 ≠ 0 then snprintf buf buflen (buf ++ ' ' :: s.toList) else buf)

/-- Source function `cdbg_get_strings(bits, bitlen, strings, buf, buflen)`; the
result is the content of `buf` on return. -/
def cdbg_get_strings (bits : Nat) (bitlen : Int) (strings : List (Option String))
    (buf : List Char) (buflen : Int) : Option (List Char) :=
  cdbg_get_strings_loop bits strings buflen (to_size_t bitlen % (8 * 8 + 1)) 0 buf

/-! ## Kernel headers

The notifier event codes, `NOTIFY_DONE` and `IFNAMSIZ` come from the kernel
headers the module is built against. -/

/-- Modelled from the spec: the kernel header generations the `#ifdef`s of the
module tell apart, the headers themselves not being part of the module: neither
`NETDEV_PRECHANGEMTU` nor `NETDEV_CHANGEINFODATA` is defined, only
`NETDEV_PRECHANGEMTU` is, or both are. -/
inductive Headers where
  | join
  | prechangemtu
  | changeinfodata
  deriving DecidableEq

/-- Result of `#ifdef NETDEV_PRECHANGEMTU`. -/
def defined_PRECHANGEMTU : Headers → Bool
  | .join => false
  | .prechangemtu => true
  | .changeinfodata => true

/-- Result of `#ifdef NETDEV_CHANGEINFODATA`. -/
def defined_CHANGEINFODATA : Headers → Bool
  | .join => false
  | .prechangemtu => false
  | .changeinfodata => true

/-- Modelled from the spec: the event code `NETDEV_CHANGE` of the kernel header
`linux/netdevice.h`, which is not part of the module. -/
def NETDEV_CHANGE : Nat := 0x0004

/-- Modelled from the spec: the event code `NETDEV_CHANGEMTU` of the kernel header
`linux/netdevice.h`, which is not part of the module. -/
def NETDEV_CHANGEMTU : Nat := 0x0007

/-- Modelled from the spec: the event code `NETDEV_CHANGEADDR` of the kernel header
`linux/netdevice.h`, which is not part of the module. -/
def NETDEV_CHANGEADDR : Nat := 0x0008

/-- Modelled from the spec: the event code `NETDEV_FEAT_CHANGE` of the kernel header
`linux/netdevice.h`, which is not part of the module. -/
def NETDEV_FEAT_CHANGE : Nat := 0x000B

/-- Modelled from the spec: the event code `NETDEV_PRE_TYPE_CHANGE` of the kernel header
`linux/netdevice.h`, which is not part of the module. -/
def NETDEV_PRE_TYPE_CHANGE : Nat := 0x000E

/-- Modelled from the spec: the event code `NETDEV_POST_TYPE_CHANGE` of the kernel header
`linux/netdevice.h`, which is not part of the module. -/
def NETDEV_POST_TYPE_CHANGE : Nat := 0x000F

/-- Modelled from the spec: the event code `NETDEV_JOIN` of the kernel header
`linux/netdevice.h`, which is not part of the module. -/
def NETDEV_JOIN : Nat := 0x0014

/-- Modelled from the spec: the event code `NETDEV_PRECHANGEMTU` of the kernel header
`linux/netdevice.h`, which is not part of the module. -/
def NETDEV_PRECHANGEMTU : Nat := 0x0017

/-- Modelled from the spec: the event code `NETDEV_CHANGEINFODATA` of the kernel header
`linux/netdevice.h`, which is not part of the module. -/
def NETDEV_CHANGEINFODATA : Nat := 0x0018

/-- Modelled from the spec: the return code `NOTIFY_DONE` of the kernel header
`linux/notifier.h`. -/
def NOTIFY_DONE : Nat := 0x0000

/-- Modelled from the spec: the size `IFNAMSIZ` of the array `name` of
`struct net_device`, from the kernel header `linux/if.h`. -/
def IFNAMSIZ : Nat := 16

/-- Modelled from the spec: the fields of the kernel type `struct net_device`
that the module reads.  `flags` is an
`unsigned int`, `features` a `netdev_features_t`, `type` an `unsigned short`;
`mtu` is the value the conversion `%d` reads. -/
structure net_device where
  name : String
  flags : Nat
  features : Nat
  mtu : Int
  type : Nat
  dev_addr : List Nat

/-- Modelled from the spec: the field of the kernel type `struct in_device` that
is read. -/
structure in_device where
  dev : Option net_device

/-- Modelled from the spec: the fields of the kernel type `struct in_ifaddr`
that are read; `ifa_address` holds the four bytes of the address. -/
structure in_ifaddr where
  ifa_dev : Option in_device
  ifa_address : List Nat

/-- Modelled from the spec: the field of the kernel type `struct inet6_dev` that
is read. -/
structure inet6_dev where
  dev : Option net_device

/-- Modelled from the spec: the fields of the kernel type `struct inet6_ifaddr`
that are read; `addr` holds the sixteen bytes of the address. -/
structure inet6_ifaddr where
  idev : Option inet6_dev
  addr : List Nat

/-! ## Tables -/

/-- Macro `ND_END`. -/
def ND_END (h : Headers) : Nat :=
  if defined_CHANGEINFODATA h then NETDEV_CHANGEINFODATA
  else if defined_PRECHANGEMTU h then NETDEV_PRECHANGEMTU
  else NETDEV_JOIN

/-- Table `ND_EVENTS`. -/
def ND_EVENTS (h : Headers) : List (Option String) :=
  [
   some "",
   some "UP",
   some "DOWN",
   some "REBOOT",
   some "CHANGE",
   some "REGISTER",
   some "UNREGISTER",
   some "CHANGEMTU",
   some "CHANGEADDR",
   some "GOING_DOWN",
   some "CHANGENAME",
   some "FEAT_CHANGE",
   some "BONDING_FAILOVER",
   some "PRE_UP",
   some "PRE_TYPE_CHANGE",
   some "POST_TYPE_CHANGE",
   some "POST_INIT",
   some "UNREGISTER_FINAL",
   some "RELEASE",
   some "NOTIFY_PEERS",
   some "JOIN"
  ]
  ++ (if defined_PRECHANGEMTU h then
        [some "CHANGEUPPER", some "RESEND_IGMP", some "PRECHANGEMTU"] else [])
  ++ (if defined_CHANGEINFODATA h then [some "CHANGEINFODATA"] else [])
  ++ [none]

/-- Table `netdev_features_strings`. -/
def netdev_features_strings : List (Option String) :=
  [
   some "tx-scatter-gather",
   some "tx-checksum-ipv4",
   some "UNUSED_NETIF_F_1",
   some "tx-checksum-ip-generic",
   some "tx-checksum-ipv6",
   some "highdma",
   some "tx-scatter-gather-fraglist",
   some "tx-vlan-hw-insert",
   some "rx-vlan-hw-parse",
   some "rx-vlan-filter",
   some "vlan-challenged",
   some "tx-generic-segmentation",
   some "tx-lockless",
   some "netns-local",
   some "rx-gro",
   some "rx-lro",
   some "tx-tcp-segmentation",
   some "tx-udp-fragmentation",
   some "tx-gso-robust",
   some "tx-tcp-ecn-segmentation",
   some "tx-tcp6-segmentation",
   some "tx-fcoe-segmentation",
   some "GSO_RESERVED1",
   some "GSO_RESERVED2",
   some "tx-checksum-fcoe-crc",
   some "tx-checksum-sctp",
   some "fcoe-mtu",
   some "rx-ntuple-filter",
   some "rx-hashing",
   some "rx-checksum",
   some "tx-nocache-copy",
   some "loopback",
   some "rx-fcs",
   some "rx-all",
   some "tx-vlan-stag-hw-insert",
   some "rx-vlan-stag-hw-parse",
   some "rx-vlan-stag-filter",
   some "l2-fwd-offload",
   some "busy-poll",
   none
  ]

/-- Table `netdev_flags`. -/
def netdev_flags : List (Option String) :=
  [
   some "IFF_UP",
   some "IFF_BROADCAST",
   some "IFF_DEBUG",
   some "IFF_LOOPBACK",
   some "IFF_POINTOPOINT",
   some "IFF_NOTRAILERS",
   some "IFF_RUNNING",
   some "IFF_NOARP",
   some "IFF_PROMISC",
   some "IFF_ALLMULTI",
   some "IFF_MASTER",
   some "IFF_SLAVE",
   some "IFF_MULTICAST",
   some "IFF_PORTSEL",
   some "IFF_AUTOMEDIA",
   some "IFF_DYNAMIC",
   some "IFF_LOWER_UP",
   some "IFF_DORMANT",
   some "IFF_ECHO",
   none
  ]

/-! ## Notifier callbacks -/

/-- What a notifier callback does: its return value and the messages it hands
to `printk`. -/
structure Outcome where
  ret : Nat
  log : List (List Char)
  deriving DecidableEq

/-- Expression `event > ND_END ? "" : ND_EVENTS[event]`; the outer `none` is a
read past the end of `ND_EVENTS`. -/
def nd_event_name (h : Headers) (event : Nat) : Option (Option String) :=
  if event > ND_END h then some (some "") else (ND_EVENTS h)[event]?

/-- Variable `buflen` of `cdbg_netdev_event`. -/
def nd_buflen : Int := 128 + netdev_features_strings.length * 32

/-- Output of the format `"C: NETDEV DEV: %s EVENT: NETDEV_%s (0x%lx)"`. -/
def netdev_fmt (name : String) (nm : Option String) (event : Nat) : List Char :=
  "C: NETDEV DEV: ".toList ++ name.toList ++ " EVENT: NETDEV_".toList ++ fmt_s nm
    ++ " (0x".toList ++ fmt_lx event ++ ")".toList

/-- First `snprintf` of `cdbg_netdev_event` into the zeroed buffer. -/
def netdev_head (h : Headers) (event : Nat) (dev : net_device) : Option (List Char) :=
  (nd_event_name h event).map fun nm =>
    snprintf [] nd_buflen (netdev_fmt dev.name nm event)

/-- The `switch (event)` of `cdbg_netdev_event`, applied to the buffer `nd_buf`;
`feature_count` is the header constant `NETDEV_FEATURE_COUNT`. -/
def netdev_switch (h : Headers) (feature_count : Int) (event : Nat) (dev : net_device)
    (nd_buf : List Char) (buflen : Int) : Option (List Char) :=
  if event = NETDEV_CHANGEADDR then
    some (snprintf nd_buf buflen (nd_buf ++ " MAC: ".toList ++ fmt_pM dev.dev_addr))
  else if (defined_PRECHANGEMTU h ∧ event = NETDEV_PRECHANGEMTU) ∨ event = NETDEV_CHANGEMTU then
    some (snprintf nd_buf buflen
      (nd_buf ++ " ".toList ++ (if event = NETDEV_CHANGEMTU then "NEW" else "OLD").toList
        ++ " MTU: ".toList ++ fmt_d dev.mtu))
  else if event = NETDEV_PRE_TYPE_CHANGE ∨ event = NETDEV_POST_TYPE_CHANGE then
    some (snprintf nd_buf buflen
      (nd_buf ++ " ".toList ++ (if event = NETDEV_POST_TYPE_CHANGE then "NEW" else "OLD").toList
        ++ " TYPE: 0x".toList ++ fmt_x dev.type))
  else if event = NETDEV_CHANGE then
    cdbg_get_strings dev.flags (4 * 8) netdev_flags
      (snprintf nd_buf buflen (nd_buf ++ " FLAGS: (0x".toList ++ fmt_x dev.flags ++ ")".toList))
      buflen
  else if event = NETDEV_FEAT_CHANGE then
    cdbg_get_strings (dev.features % 2 ^ 64) feature_count netdev_features_strings
      (snprintf nd_buf buflen
        (nd_buf ++ " FEATURES: (0x".toList ++ fmt_llx (dev.features % 2 ^ 64) ++ ")".toList))
      buflen
  else some nd_buf

/-- Content of `nd_buf` when `cdbg_netdev_event` reaches `pr_info`. -/
def netdev_line (h : Headers) (feature_count : Int) (event : Nat) (dev : net_device) :
    Option (List Char) :=
  (netdev_head h event dev).bind fun nd_buf =>
    netdev_switch h feature_count event dev nd_buf nd_buflen

/-- Source function `cdbg_netdev_event`; `kzalloc_ok` says whether the
allocation of `nd_buf` succeeded.  `none` is a read outside a table. -/
def cdbg_netdev_event (h : Headers) (feature_count : Int) (kzalloc_ok : Bool)
    (event : Nat) (dev : net_device) : Option Outcome :=
  if kzalloc_ok = false then some ⟨NOTIFY_DONE, []⟩
  else (netdev_line h feature_count event dev).map fun nd_buf =>
    ⟨NOTIFY_DONE, [nd_buf ++ "\n".toList]⟩

/-- Source function `cdbg_inetaddr_event`. -/
def cdbg_inetaddr_event (h : Headers) (event : Nat) (ifa : in_ifaddr) : Option Outcome :=
  match ifa.ifa_dev.bind (fun d => d.dev) with
  | none => some ⟨NOTIFY_DONE, []⟩
  | some dev =>
    (nd_event_name h event).map fun nm =>
      ⟨NOTIFY_DONE,
        ["C: INETADDR DEV: ".toList ++ dev.name.toList ++ " EVENT: NETDEV_".toList ++ fmt_s nm
          ++ " (0x".toList ++ fmt_lx event ++ ") ADDR: ".toList ++ fmt_pI4 ifa.ifa_address
          ++ "\n".toList]⟩

/-- Source function `cdbg_inet6addr_event`. -/
def cdbg_inet6addr_event (h : Headers) (event : Nat) (ifa : inet6_ifaddr) : Option Outcome :=
  match ifa.idev.bind (fun d => d.dev) with
  | none => some ⟨NOTIFY_DONE, []⟩
  | some dev =>
    (nd_event_name h event).map fun nm =>
      ⟨NOTIFY_DONE,
        ["C: INET6ADDR DEV: ".toList ++ dev.name.toList ++ " EVENT: NETDEV_".toList ++ fmt_s nm
          ++ " (0x".toList ++ fmt_lx event ++ ") ADDR: ".toList ++ fmt_pI6 ifa.addr
          ++ "\n".toList]⟩

/-! ## Reference renderer -/

/-- The text the bitmask renderer of the specification appends: the names at
the positions below `bound` whose bit is set in `bits`, in increasing position
order, each preceded by one space. -/
def render_names (bits : Nat) (bound : Nat) (names : List String) : List Char :=
  ((List.range bound).filter fun i => bits.testBit i).flatMap
    fun i => ' ' :: (names.getD i "").toList

/-- The names of a table before its first `NULL` slot. -/
def table_names : List (Option String) → List String
  | some s :: t => s :: table_names t
  | _ => []

/-- Content of `nd_buf` when `cdbg_netdev_event` reaches `pr_info`, for a
buffer of `size` bytes in place of `buflen`. -/
def netdev_line_sized (size : Int) (h : Headers) (feature_count : Int) (event : Nat)
    (dev : net_device) : Option (List Char) :=
  (nd_event_name h event).bind fun nm =>
    netdev_switch h feature_count event dev
      (snprintf [] size (netdev_fmt dev.name nm event)) size

/-- The shift counts `i` of the evaluations of `bits >> i` in the loop of
`cdbg_get_strings`, in order: `n` iterations remain, `i` is the loop counter. -/
def cdbg_get_strings_shifts (strings : List (Option String)) : Nat → Nat → List Nat
  | 0, _ => []
  | n + 1, i =>
    match strings[i]? with
    | none => []
    | some none => []
    | some (some _) => i :: cdbg_get_strings_shifts strings n (i + 1)

/-- The labels of the per-kind fields that the switch of `cdbg_netdev_event`
prints, up to their colon, in the order `MAC`, `NEW MTU`, `OLD MTU`,
`OLD TYPE`, `NEW TYPE`, `FLAGS`, `FEATURES`. -/
def field_labels : List (List Char) :=
  [" MAC".toList, " NEW MTU".toList, " OLD MTU".toList, " OLD TYPE".toList,
    " NEW TYPE".toList, " FLAGS".toList, " FEATURES".toList]

/-- The names of the event constants of the case labels that print the fields
of `field_labels`, in the same order. -/
def field_names : List String :=
  ["CHANGEADDR", "CHANGEMTU", "PRECHANGEMTU", "PRE_TYPE_CHANGE", "POST_TYPE_CHANGE",
    "CHANGE", "FEAT_CHANGE"]

/-! ## Auxiliary facts -/

/-- The test `(bits >> i) & 0x1` of the source is the bit test of `Nat`. -/
theorem bit_test_iff (bits i : Nat) : ((bits >>> i) &&& 1 ≠ 0) ↔ bits.testBit i = true := by
  unfold Nat.testBit
  rw [Nat.land_comm]
  simp

/-- Truncating twice at the same length is truncating once. -/
theorem take_append_take {α : Type} (n : Nat) (l r : List α) :
    (l.take n ++ r).take n = (l ++ r).take n := by
  rcases Nat.lt_or_ge n l.length with h | h
  · rw [List.take_append_of_le_length (by simp; omega),
      List.take_append_of_le_length (by omega), List.take_take]
    simp
  · rw [List.take_of_length_le h]

/-- The loop of `cdbg_get_strings` on a table with a terminator: it performs one
`snprintf` for each set bit below both the loop bound and the terminator. -/
theorem loop_fold (bits : Nat) (names : List String) (rest : List (Option String))
    (buflen : Int) : ∀ (n i : Nat) (buf : List Char), i ≤ names.length →
    cdbg_get_strings_loop bits (names.map some ++ none :: rest) buflen n i buf
      = some (((List.range' i (min n (names.length - i))).filter fun j => bits.testBit j).foldl
          (fun b j => snprintf b buflen (b ++ ' ' :: (names.getD j "").toList)) buf) := by
  intro n
  induction n with
  | zero => intro i buf _; simp [cdbg_get_strings_loop]
  | succ n ih =>
    intro i buf hi
    rcases Nat.lt_or_ge i names.length with hlt | hge
    · have hget : (names.map some ++ none :: rest)[i]? = some (some (names[i])) := by
        rw [List.getElem?_append_left (by simpa using hlt)]
        simp [hlt]
      have hmin : min (n + 1) (names.length - i) = min n (names.length - (i + 1)) + 1 := by
        omega
      have hD : names[i]? = some names[i] := List.getElem?_eq_getElem hlt
      rw [cdbg_get_strings_loop, hget]
      simp only []
      rw [ih (i + 1) _ (by omega), hmin, List.range'_succ, List.filter_cons]
      by_cases hb : bits.testBit i = true
      · have hb2 : (bits >>> i) &&& 1 ≠ 0 := (bit_test_iff bits i).2 hb
        rw [if_pos hb2]
        simp [hb, hD]
      · have hb2 : ¬ ((bits >>> i) &&& 1 ≠ 0) := fun h => hb ((bit_test_iff bits i).1 h)
        rw [if_neg hb2]
        simp [hb]
    · have hN : i = names.length := by omega
      subst hN
      have hget : (names.map some ++ none :: rest)[names.length]? = some none := by
        rw [List.getElem?_append_right (by simp)]
        simp
      rw [cdbg_get_strings_loop, hget]
      simp

/-- With room for the NUL in a buffer of a positive size, the `snprintf` calls
of the loop build the appended text cut to `buflen - 1` characters. -/
theorem fold_snprintf_take (buflen : Int) (f : Nat → List Char) :
    ∀ (ps : List Nat) (buf : List Char), (buf.length : Int) < buflen →
    ps.foldl (fun b j => snprintf b buflen (b ++ f j)) buf
      = (buf ++ ps.flatMap f).take (buflen - 1).toNat := by
  intro ps
  induction ps with
  | nil =>
    intro buf hb
    simp only [List.foldl_nil, List.flatMap_nil, List.append_nil]
    rw [List.take_of_length_le (by omega)]
  | cons p ps ih =>
    intro buf hb
    have hpos : ¬ buflen ≤ 0 := by omega
    simp only [List.foldl_cons, List.flatMap_cons]
    rw [ih _ (by simp [snprintf, hpos]; omega)]
    simp only [snprintf, hpos, if_false]
    rw [take_append_take, List.append_assoc]

/-- The conversion of a non-negative `int` to `size_t` keeps its value. -/
theorem to_size_t_of_nonneg (v : Int) (h0 : 0 ≤ v) (h1 : v < 2 ^ 31) :
    to_size_t v = v.toNat := by
  unfold to_size_t
  rw [Int.emod_eq_of_lt h0 (by omega)]

/-- Result of `cdbg_get_strings` on a table whose first `NULL` slot follows the
names `names`, for a buffer that holds a string shorter than its size. -/
theorem get_strings_terminated (bits : Nat) (bitlen : Int) (names : List String)
    (rest : List (Option String)) (buf : List Char) (buflen : Int)
    (hb : (buf.length : Int) < buflen) :
    cdbg_get_strings bits bitlen (names.map some ++ none :: rest) buf buflen
      = some ((buf ++ render_names bits (min (to_size_t bitlen % 65) names.length) names).take
          (buflen - 1).toNat) := by
  unfold cdbg_get_strings
  rw [loop_fold bits names rest buflen _ 0 buf (Nat.zero_le _),
    fold_snprintf_take buflen _ _ buf hb]
  simp [render_names, List.range_eq_range']

/-- What follows the first `NULL` slot of the table has no effect. -/
theorem get_strings_rest_irrelevant (bits : Nat) (bitlen : Int) (names : List String)
    (r1 r2 : List (Option String)) (buf : List Char) (buflen : Int) :
    cdbg_get_strings bits bitlen (names.map some ++ none :: r1) buf buflen
      = cdbg_get_strings bits bitlen (names.map some ++ none :: r2) buf buflen := by
  unfold cdbg_get_strings
  rw [loop_fold bits names r1 buflen _ 0 buf (Nat.zero_le _),
    loop_fold bits names r2 buflen _ 0 buf (Nat.zero_le _)]

/-- A table with a `NULL` at slot `k` is a run of names, its first `NULL` at a
slot not after `k`, and a remainder. -/
theorem table_split : ∀ (t : List (Option String)) (k : Nat), t[k]? = some none →
    ∃ (names : List String) (rest : List (Option String)),
      t = names.map some ++ none :: rest ∧ names.length ≤ k := by
  intro t
  induction t with
  | nil => intro k h; simp at h
  | cons a t ih =>
    intro k h
    cases a with
    | none => exact ⟨[], t, by simp, Nat.zero_le _⟩
    | some s =>
      cases k with
      | zero => simp at h
      | succ k =>
        obtain ⟨names, rest, ht, hk⟩ := ih k (by simpa using h)
        exact ⟨s :: names, rest, by simp [ht], by simpa using hk⟩

/-- Positions kept by the renderer lie below the bound. -/
theorem mem_scan (bits bound i : Nat)
    (h : i ∈ (List.range bound).filter fun j => bits.testBit j) :
    i < bound ∧ bits.testBit i = true := by
  simpa using h

/-- An output shorter than the buffer size is stored whole. -/
theorem snprintf_fits (old out : List Char) (buflen : Int)
    (h : (out.length : Int) < buflen) : snprintf old buflen out = out := by
  unfold snprintf
  rw [if_neg (by omega), List.take_of_length_le (by omega)]

/-- Truncation keeps a prefix that fits. -/
theorem take_append_of_fits {α : Type} (n : Nat) (l x : List α) (h : l.length ≤ n) :
    ∃ r, (l ++ x).take n = l ++ r :=
  ⟨x.take (n - l.length), by rw [List.take_append_eq_append_take, List.take_of_length_le h]⟩

/-- An `snprintf` that re-prints the buffer in front keeps the buffer. -/
theorem snprintf_keeps_prefix (buf x : List Char) (buflen : Int)
    (hb : (buf.length : Int) < buflen) :
    ∃ r, snprintf buf buflen (buf ++ x) = buf ++ r
      ∧ ((buf ++ r).length : Int) < buflen := by
  unfold snprintf
  rw [if_neg (by omega)]
  obtain ⟨r, hr⟩ := take_append_of_fits (buflen - 1).toNat buf x (by omega)
  refine ⟨r, hr, ?_⟩
  rw [← hr, List.length_take]
  omega

/-- On a table with a terminator `cdbg_get_strings` keeps what the buffer held. -/
theorem get_strings_keeps_prefix (bits : Nat) (bitlen : Int) (table : List (Option String))
    (buf : List Char) (buflen : Int) (hterm : none ∈ table)
    (hb : (buf.length : Int) < buflen) :
    ∃ r, cdbg_get_strings bits bitlen table buf buflen = some (buf ++ r) := by
  obtain ⟨k, hk⟩ := List.getElem?_of_mem hterm
  obtain ⟨names, rest, ht, -⟩ := table_split table k hk
  subst ht
  rw [get_strings_terminated bits bitlen names rest buf buflen hb]
  obtain ⟨r, hr⟩ := take_append_of_fits (buflen - 1).toNat buf
    (render_names bits (min (to_size_t bitlen % 65) names.length) names) (by omega)
  exact ⟨r, by rw [hr]⟩

/-- Number of digits of a value below `b ^ e`. -/
theorem toDigits_length_le (b n e : Nat) (hb : 2 ≤ b) (hn : n < b ^ e) (he : 0 < e) :
    (Nat.toDigits b n).length ≤ e := by
  unfold Nat.toDigits
  exact Nat.toDigitsCore_length b hb (n + 1) n e hn he

theorem fmt_lx_length (v : Nat) : (fmt_lx v).length ≤ 16 := by
  unfold fmt_lx
  exact toDigits_length_le 16 _ 16 (by decide) (by
    have : v % 2 ^ 64 < 2 ^ 64 := Nat.mod_lt _ (by positivity)
    calc v % 2 ^ 64 < 2 ^ 64 := this
      _ = 16 ^ 16 := by norm_num) (by decide)

theorem fmt_lx_of_lt (v : Nat) (h : v < 2 ^ 64) : fmt_lx v = Nat.toDigits 16 v := by
  unfold fmt_lx
  rw [Nat.mod_eq_of_lt h]

theorem fmt_x_length (v : Nat) : (fmt_x v).length ≤ 8 := by
  unfold fmt_x
  exact toDigits_length_le 16 _ 8 (by decide) (by
    have : v % 2 ^ 32 < 2 ^ 32 := Nat.mod_lt _ (by positivity)
    calc v % 2 ^ 32 < 2 ^ 32 := this
      _ = 16 ^ 8 := by norm_num) (by decide)

theorem fmt_x_of_lt (v : Nat) (h : v < 2 ^ 32) : fmt_x v = Nat.toDigits 16 v := by
  unfold fmt_x
  rw [Nat.mod_eq_of_lt h]

/-- The names of `ND_EVENTS` have at most 16 characters. -/
theorem nd_event_name_length (h : Headers) (event : Nat) (nm : Option String)
    (hn : nd_event_name h event = some nm) : (fmt_s nm).length ≤ 16 := by
  have hall : ∀ x ∈ ND_EVENTS h, (fmt_s x).length ≤ 16 := by
    cases h <;> decide
  unfold nd_event_name at hn
  split at hn
  · cases hn
    decide
  · exact hall nm (List.getElem?_mem hn)

/-- The value of `buflen` in `cdbg_netdev_event`. -/
theorem nd_buflen_eq : nd_buflen = 1408 := by decide

/-- Length of the always-present fields. -/
theorem netdev_fmt_length (name : String) (nm : Option String) (event : Nat) :
    (netdev_fmt name nm event).length
      = 35 + name.length + (fmt_s nm).length + (fmt_lx event).length := by
  have e1 : ("C: NETDEV DEV: ".toList).length = 15 := rfl
  have e2 : (" EVENT: NETDEV_".toList).length = 15 := rfl
  have e3 : (" (0x".toList).length = 4 := rfl
  have e4 : (")".toList).length = 1 := rfl
  have e5 : name.toList.length = name.length := rfl
  simp only [netdev_fmt, List.length_append, e1, e2, e3, e4, e5]
  omega

/-- The first `snprintf` of `cdbg_netdev_event` is never cut for a device name
shorter than `IFNAMSIZ`. -/
theorem netdev_head_eq (h : Headers) (event : Nat) (dev : net_device) (nm : Option String)
    (hn : nd_event_name h event = some nm) (hname : dev.name.length < IFNAMSIZ) :
    netdev_head h event dev = some (netdev_fmt dev.name nm event)
      ∧ (netdev_fmt dev.name nm event).length ≤ 82 := by
  have hl := netdev_fmt_length dev.name nm event
  have h1 := nd_event_name_length h event nm hn
  have h2 := fmt_lx_length event
  have h3 : dev.name.length < 16 := hname
  refine ⟨?_, by omega⟩
  unfold netdev_head
  rw [hn, Option.map_some', snprintf_fits _ _ _ (by rw [nd_buflen_eq]; omega)]

/-- The name lookup always yields a name: the empty one above `ND_END`, the
table entry otherwise. -/
theorem nd_event_name_total (h : Headers) (event : Nat) :
    (ND_END h < event ∧ nd_event_name h event = some (some ""))
      ∨ (event ≤ ND_END h ∧ ∃ s : String, (ND_EVENTS h)[event]? = some (some s)
          ∧ nd_event_name h event = some (some s) ∧ (s = "" ↔ event = 0)) := by
  rcases Nat.lt_or_ge (ND_END h) event with hgt | hle
  · exact Or.inl ⟨hgt, by simp [nd_event_name, hgt]⟩
  · refine Or.inr ⟨hle, ?_⟩
    have hn : nd_event_name h event = (ND_EVENTS h)[event]? := by
      simp [nd_event_name, Nat.not_lt.2 hle]
    rw [hn]
    cases h
    · have hb : event ≤ 20 := hle
      interval_cases event <;> exact ⟨_, rfl, rfl, by decide⟩
    · have hb : event ≤ 23 := hle
      interval_cases event <;> exact ⟨_, rfl, rfl, by decide⟩
    · have hb : event ≤ 24 := hle
      interval_cases event <;> exact ⟨_, rfl, rfl, by decide⟩

/-- Every switch case label is a known event code. -/
theorem nd_end_ge (h : Headers) :
    20 ≤ ND_END h ∧ (defined_PRECHANGEMTU h = true → 23 ≤ ND_END h) := by
  cases h <;> decide

/-- The `default` case of the switch leaves the buffer as it is. -/
theorem netdev_switch_default (h : Headers) (fc : Int) (event : Nat) (dev : net_device)
    (buf : List Char) (buflen : Int)
    (h1 : event ≠ NETDEV_CHANGEADDR) (h2 : event ≠ NETDEV_CHANGEMTU)
    (h3 : ¬ (defined_PRECHANGEMTU h = true ∧ event = NETDEV_PRECHANGEMTU))
    (h4 : event ≠ NETDEV_PRE_TYPE_CHANGE) (h5 : event ≠ NETDEV_POST_TYPE_CHANGE)
    (h6 : event ≠ NETDEV_CHANGE) (h7 : event ≠ NETDEV_FEAT_CHANGE) :
    netdev_switch h fc event dev buf buflen = some buf := by
  unfold netdev_switch
  rw [if_neg h1, if_neg (by tauto), if_neg (by tauto), if_neg h6, if_neg h7]

/-- Every case of the switch keeps what the buffer held. -/
theorem netdev_switch_keeps_prefix (h : Headers) (fc : Int) (event : Nat) (dev : net_device)
    (buf : List Char) (buflen : Int) (hb : (buf.length : Int) < buflen) :
    ∃ r, netdev_switch h fc event dev buf buflen = some (buf ++ r) := by
  unfold netdev_switch
  simp only [List.append_assoc]
  split_ifs
  · obtain ⟨r, hr, -⟩ := snprintf_keeps_prefix buf
      (" MAC: ".toList ++ fmt_pM dev.dev_addr) buflen hb
    exact ⟨r, by rw [hr]⟩
  · obtain ⟨r, hr, -⟩ := snprintf_keeps_prefix buf
      (" ".toList ++ ("NEW".toList ++ (" MTU: ".toList ++ fmt_d dev.mtu))) buflen hb
    exact ⟨r, by rw [hr]⟩
  · obtain ⟨r, hr, -⟩ := snprintf_keeps_prefix buf
      (" ".toList ++ ("OLD".toList ++ (" MTU: ".toList ++ fmt_d dev.mtu))) buflen hb
    exact ⟨r, by rw [hr]⟩
  · obtain ⟨r, hr, -⟩ := snprintf_keeps_prefix buf
      (" ".toList ++ ("NEW".toList ++ (" TYPE: 0x".toList ++ fmt_x dev.type))) buflen hb
    exact ⟨r, by rw [hr]⟩
  · obtain ⟨r, hr, -⟩ := snprintf_keeps_prefix buf
      (" ".toList ++ ("OLD".toList ++ (" TYPE: 0x".toList ++ fmt_x dev.type))) buflen hb
    exact ⟨r, by rw [hr]⟩
  · obtain ⟨r, hr, hl⟩ := snprintf_keeps_prefix buf
      (" FLAGS: (0x".toList ++ (fmt_x dev.flags ++ ")".toList)) buflen hb
    obtain ⟨r2, hr2⟩ := get_strings_keeps_prefix dev.flags (4 * 8) netdev_flags (buf ++ r)
      buflen (by decide) hl
    exact ⟨r ++ r2, by rw [hr, hr2, List.append_assoc]⟩
  · obtain ⟨r, hr, hl⟩ := snprintf_keeps_prefix buf
      (" FEATURES: (0x".toList ++ (fmt_llx (dev.features % 2 ^ 64) ++ ")".toList)) buflen hb
    obtain ⟨r2, hr2⟩ := get_strings_keeps_prefix (dev.features % 2 ^ 64) fc
      netdev_features_strings (buf ++ r) buflen (by decide) hl
    exact ⟨r ++ r2, by rw [hr, hr2, List.append_assoc]⟩
  · exact ⟨[], by simp⟩

/-- For a value in the range of `int`, `%d` prints its decimal representation. -/
theorem fmt_d_of_int (m : Int) (h0 : -2 ^ 31 ≤ m) (h1 : m < 2 ^ 31) :
    fmt_d m = (Int.repr m).toList := by
  unfold fmt_d
  cases m with
  | ofNat n =>
    have hw : (Int.ofNat n % 2 ^ 32).toNat = n := by
      simp only [Int.ofNat_eq_coe] at h1 ⊢
      omega
    have hlt : n < 2 ^ 31 := by
      simp only [Int.ofNat_eq_coe] at h1
      omega
    simp only [hw, hlt, if_true]
    rfl
  | negSucc n =>
    have hn : n + 1 ≤ 2 ^ 31 := by
      simp only [Int.negSucc_eq] at h0
      omega
    have hw : (Int.negSucc n % 2 ^ 32).toNat = 2 ^ 32 - (n + 1) := by
      simp only [Int.negSucc_eq]
      omega
    have hge : ¬ (2 ^ 32 - (n + 1) < 2 ^ 31) := by omega
    have hsub : 2 ^ 32 - (2 ^ 32 - (n + 1)) = n + 1 := by omega
    simp only [hw, hge, if_false, hsub]
    rfl

theorem fmt_d_length (v : Int) : (fmt_d v).length ≤ 11 := by
  unfold fmt_d
  simp only []
  split_ifs with hlt
  · have := toDigits_length_le 10 (v % 2 ^ 32).toNat 10 (by decide) (by omega) (by decide)
    omega
  · have := toDigits_length_le 10 (2 ^ 32 - (v % 2 ^ 32).toNat) 10 (by decide) (by omega)
      (by decide)
    simp only [List.length_cons]
    omega

/-- The line of a case that performs one `snprintf` whose output fits. -/
theorem netdev_event_of_switch (h : Headers) (fc : Int) (event : Nat) (dev : net_device)
    (nm : String) (x : List Char)
    (hn : nd_event_name h event = some (some nm)) (hname : dev.name.length < IFNAMSIZ)
    (hx : x.length ≤ 64)
    (hsw : ∀ buf, netdev_switch h fc event dev buf nd_buflen
      = some (snprintf buf nd_buflen (buf ++ x))) :
    cdbg_netdev_event h fc true event dev
      = some ⟨NOTIFY_DONE, [netdev_fmt dev.name (some nm) event ++ x ++ ['\n']]⟩ := by
  obtain ⟨hhead, hlen⟩ := netdev_head_eq h event dev _ hn hname
  have hline : netdev_line h fc event dev = some (netdev_fmt dev.name (some nm) event ++ x) := by
    unfold netdev_line
    rw [hhead]
    show netdev_switch h fc event dev _ nd_buflen = _
    rw [hsw, snprintf_fits _ _ _ (by rw [nd_buflen_eq, List.length_append]; omega)]
  simp [cdbg_netdev_event, hline]

/-! ## The bitmask renderer `cdbg_get_strings` -/

/-- C1, as stated, fails: with `bitlen = 65` and a table of one name the loop
bound is `65 % 65 = 0`, so nothing is appended although bit 0 is set and
`min(65, 1) = 1`. -/
theorem C1_counterexample :
    cdbg_get_strings 1 65 [some "A", none] [] 16 = some []
      ∧ [] ++ render_names 1 (min 65 1) ["A"] = [' ', 'A']
      ∧ cdbg_get_strings 1 65 [some "A", none] [] 16
          ≠ some ([] ++ render_names 1 (min 65 1) ["A"]) := by
  decide

/-- C1 (amended): for a bit width `bitlen ≥ 0`, a table whose terminator follows
`names`, and a buffer large enough for the result, `cdbg_get_strings` appends
exactly the names at the positions below `min (bitlen % 65) names.length` whose
bit is set in `bits`, each preceded by one space, in increasing position
order. -/
theorem C1_scan_bound (bits : Nat) (bitlen : Int) (names : List String)
    (rest : List (Option String)) (buf : List Char) (buflen : Int)
    (h0 : 0 ≤ bitlen) (h1 : bitlen < 2 ^ 31)
    (hroom : (((buf ++ render_names bits (min (bitlen.toNat % 65) names.length) names).length
      : Nat) : Int) < buflen) :
    cdbg_get_strings bits bitlen (names.map some ++ none :: rest) buf buflen
      = some (buf ++ render_names bits (min (bitlen.toNat % 65) names.length) names) := by
  have hb : (buf.length : Int) < buflen := by
    rw [List.length_append] at hroom
    omega
  rw [get_strings_terminated bits bitlen names rest buf buflen hb,
    to_size_t_of_nonneg bitlen h0 h1, List.take_of_length_le (by omega)]

/-- Witness of C1 (amended): flags `0x1043` at width 32 against `netdev_flags`. -/
theorem C1_scan_bound_witness :
    cdbg_get_strings 0x1043 32
        (["IFF_UP", "IFF_BROADCAST", "IFF_DEBUG", "IFF_LOOPBACK", "IFF_POINTOPOINT",
          "IFF_NOTRAILERS", "IFF_RUNNING"].map some ++ none :: []) ['x'] 64
      = some (['x'] ++ render_names 0x1043 (min ((32 : Int).toNat % 65) 7)
          ["IFF_UP", "IFF_BROADCAST", "IFF_DEBUG", "IFF_LOOPBACK", "IFF_POINTOPOINT",
            "IFF_NOTRAILERS", "IFF_RUNNING"]) :=
  C1_scan_bound 0x1043 32 _ [] ['x'] 64 (by decide) (by decide) (by decide)

/-- C2: whatever the bit width, the names `cdbg_get_strings` appends (cut to
the buffer size) are those of a list of positions that is strictly increasing,
holds only positions of set bits that have a name, and has at most
`names.length` entries. -/
theorem C2_only_set_bits_increasing (bits : Nat) (bitlen : Int) (names : List String)
    (rest : List (Option String)) (buf : List Char) (buflen : Int)
    (hb : (buf.length : Int) < buflen) :
    ∃ ps : List Nat,
      ps.Pairwise (· < ·)
      ∧ (∀ i ∈ ps, i < names.length ∧ bits.testBit i = true)
      ∧ ps.length ≤ names.length
      ∧ cdbg_get_strings bits bitlen (names.map some ++ none :: rest) buf buflen
          = some ((buf ++ ps.flatMap fun i => ' ' :: (names.getD i "").toList).take
              (buflen - 1).toNat) := by
  refine ⟨(List.range (min (to_size_t bitlen % 65) names.length)).filter
    fun i => bits.testBit i, ?_, ?_, ?_, ?_⟩
  · exact List.Pairwise.filter _ (List.pairwise_lt_range _)
  · intro i hi
    have h := mem_scan bits _ i hi
    exact ⟨by omega, h.2⟩
  · calc _ ≤ (List.range (min (to_size_t bitlen % 65) names.length)).length :=
          List.length_filter_le _ _
      _ ≤ names.length := by simp
  · exact get_strings_terminated bits bitlen names rest buf buflen hb

/-- Witness of C2. -/
theorem C2_only_set_bits_increasing_witness :
    ∃ ps : List Nat,
      ps.Pairwise (· < ·)
      ∧ (∀ i ∈ ps, i < ["A", "B", "C"].length ∧ Nat.testBit 5 i = true)
      ∧ ps.length ≤ ["A", "B", "C"].length
      ∧ cdbg_get_strings 5 32 (["A", "B", "C"].map some ++ none :: []) [] 8
          = some (([] ++ ps.flatMap fun i => ' ' :: (["A", "B", "C"].getD i "").toList).take
              ((8 : Int) - 1).toNat) :=
  C2_only_set_bits_increasing 5 32 ["A", "B", "C"] [] [] 8 (by decide)

/-- C3: with `bits = 0` the buffer is unchanged, for every table that has a
terminator, every bit width and every buffer; with `bitlen = 0` it is unchanged
for every `bits` and every table. -/
theorem C3_zero_appends_nothing (bits : Nat) (bitlen : Int) (table : List (Option String))
    (buf : List Char) (buflen : Int) :
    (none ∈ table → cdbg_get_strings 0 bitlen table buf buflen = some buf)
      ∧ cdbg_get_strings bits 0 table buf buflen = some buf := by
  constructor
  · intro hterm
    obtain ⟨k, hk⟩ := List.getElem?_of_mem hterm
    obtain ⟨names, rest, ht, -⟩ := table_split table k hk
    subst ht
    unfold cdbg_get_strings
    rw [loop_fold 0 names rest buflen _ 0 buf (Nat.zero_le _)]
    simp
  · simp [cdbg_get_strings, to_size_t, cdbg_get_strings_loop]

/-- Witness of C3. -/
theorem C3_zero_appends_nothing_witness :
    cdbg_get_strings 0 32 netdev_flags ['x'] 8 = some ['x'] :=
  (C3_zero_appends_nothing 0 32 netdev_flags ['x'] 8).1 (by decide)

/-- C4: when slot `k` of the table is `NULL`, every name `cdbg_get_strings`
appends is stored at a position below `k`; replacing what follows slot `k` by
anything else leaves the result unchanged; and a table whose slot 0 is `NULL`
leaves the buffer as it was. -/
theorem C4_stops_at_terminator (bits : Nat) (bitlen : Int) (table : List (Option String))
    (k : Nat) (buf : List Char) (buflen : Int)
    (hk : table[k]? = some none) (hb : (buf.length : Int) < buflen) :
    (∃ ps : List Nat, (∀ i ∈ ps, i < k)
        ∧ cdbg_get_strings bits bitlen table buf buflen
            = some ((buf ++ ps.flatMap fun i => ' ' :: fmt_s (table.getD i none)).take
                (buflen - 1).toNat))
      ∧ (∀ later : List (Option String),
          cdbg_get_strings bits bitlen (table.take k ++ none :: later) buf buflen
            = cdbg_get_strings bits bitlen table buf buflen)
      ∧ (k = 0 → cdbg_get_strings bits bitlen table buf buflen = some buf) := by
  obtain ⟨names, rest, ht, hN⟩ := table_split table k hk
  subst ht
  refine ⟨⟨(List.range (min (to_size_t bitlen % 65) names.length)).filter
    fun i => bits.testBit i, ?_, ?_⟩, ?_, ?_⟩
  · intro i hi
    have h := mem_scan bits _ i hi
    omega
  · rw [get_strings_terminated bits bitlen names rest buf buflen hb, render_names]
    congr 3
    apply List.flatMap_congr
    intro i hi
    have h := mem_scan bits _ i hi
    have hi2 : i < names.length := by omega
    have e1 : names[i]? = some names[i] := List.getElem?_eq_getElem hi2
    have e2 : (names.map some ++ none :: rest)[i]? = some (some names[i]) := by
      rw [List.getElem?_append_left (by simpa using hi2)]
      simp [hi2]
    simp [List.getD_eq_getElem?_getD, e1, e2, fmt_s]
  · intro later
    rw [List.take_append_eq_append_take, List.take_of_length_le (by simpa using hN)]
    rcases Nat.eq_or_lt_of_le hN with h | h
    · have hz : k - (names.map some).length = 0 := by simp [h]
      rw [hz]
      simpa using get_strings_rest_irrelevant bits bitlen names later rest buf buflen
    · obtain ⟨d, hd⟩ : ∃ d, k - (names.map some).length = d + 1 :=
        ⟨k - names.length - 1, by simp; omega⟩
      rw [hd, List.take_succ_cons, List.append_assoc, List.cons_append]
      exact get_strings_rest_irrelevant bits bitlen names _ rest buf buflen
  · intro h0
    have hz : names = [] := List.eq_nil_of_length_eq_zero (by omega)
    subst hz
    rw [get_strings_terminated bits bitlen [] rest buf buflen hb]
    simp [render_names]
    omega

/-- Witness of C4: the name at slot 2 follows the `NULL` of slot 1 and is
skipped although bit 2 is set. -/
theorem C4_stops_at_terminator_witness :
    (∃ ps : List Nat, (∀ i ∈ ps, i < 1)
        ∧ cdbg_get_strings 7 32 [some "A", none, some "C", none] [] 8
            = some (([] ++ ps.flatMap fun i =>
                ' ' :: fmt_s ([some "A", none, some "C", none].getD i none)).take
                  ((8 : Int) - 1).toNat))
      ∧ (∀ later : List (Option String),
          cdbg_get_strings 7 32 ([some "A", none, some "C", none].take 1 ++ none :: later) [] 8
            = cdbg_get_strings 7 32 [some "A", none, some "C", none] [] 8)
      ∧ (1 = 0 → cdbg_get_strings 7 32 [some "A", none, some "C", none] [] 8 = some []) :=
  C4_stops_at_terminator 7 32 [some "A", none, some "C", none] 1 [] 8 (by decide) (by decide)

/-! ## The event renderer -/

/-- C5, as stated, fails: for the event code 25, above `ND_END = 24`, the three
callbacks print the empty string for the event name; no line carries the words
`unrecognized event code`. -/
theorem C5_counterexample :
    ND_END .changeinfodata < 25
      ∧ cdbg_netdev_event .changeinfodata 39 true 25 ⟨"eth0", 0, 0, 1500, 1, []⟩
          = some ⟨NOTIFY_DONE, ["C: NETDEV DEV: eth0 EVENT: NETDEV_ (0x19)\n".toList]⟩
      ∧ ¬ ("unrecognized event code".toList
            <:+: "C: NETDEV DEV: eth0 EVENT: NETDEV_ (0x19)\n".toList)
      ∧ cdbg_inetaddr_event .changeinfodata 25
            ⟨some ⟨some ⟨"eth0", 0, 0, 1500, 1, []⟩⟩, [192, 0, 2, 10]⟩
          = some ⟨NOTIFY_DONE,
              ["C: INETADDR DEV: eth0 EVENT: NETDEV_ (0x19) ADDR: 192.0.2.10\n".toList]⟩
      ∧ ¬ ("unrecognized event code".toList
            <:+: "C: INETADDR DEV: eth0 EVENT: NETDEV_ (0x19) ADDR: 192.0.2.10\n".toList) := by
  decide

/-- C5 (amended): for every event code above `ND_END` the three callbacks print
the empty string in place of the event name, so the line reads
`EVENT: NETDEV_ (0x<code>)` with the code in hexadecimal. -/
theorem C5_unknown_event_empty_name (h : Headers) (fc : Int) (event : Nat) (dev : net_device)
    (a4 a6 : List Nat)
    (hev : ND_END h < event) (h64 : event < 2 ^ 64) (hname : dev.name.length < IFNAMSIZ) :
    cdbg_netdev_event h fc true event dev
        = some ⟨NOTIFY_DONE,
            ["C: NETDEV DEV: ".toList ++ dev.name.toList ++ " EVENT: NETDEV_".toList
              ++ " (0x".toList ++ Nat.toDigits 16 event ++ ")".toList ++ "\n".toList]⟩
      ∧ cdbg_inetaddr_event h event ⟨some ⟨some dev⟩, a4⟩
        = some ⟨NOTIFY_DONE,
            ["C: INETADDR DEV: ".toList ++ dev.name.toList ++ " EVENT: NETDEV_".toList
              ++ " (0x".toList ++ Nat.toDigits 16 event ++ ") ADDR: ".toList ++ fmt_pI4 a4
              ++ "\n".toList]⟩
      ∧ cdbg_inet6addr_event h event ⟨some ⟨some dev⟩, a6⟩
        = some ⟨NOTIFY_DONE,
            ["C: INET6ADDR DEV: ".toList ++ dev.name.toList ++ " EVENT: NETDEV_".toList
              ++ " (0x".toList ++ Nat.toDigits 16 event ++ ") ADDR: ".toList ++ fmt_pI6 a6
              ++ "\n".toList]⟩ := by
  have hn : nd_event_name h event = some (some "") := by simp [nd_event_name, hev]
  have hge := nd_end_ge h
  have hsw : ∀ buf, netdev_switch h fc event dev buf nd_buflen = some buf := fun buf =>
    netdev_switch_default h fc event dev buf nd_buflen
      (by simp only [NETDEV_CHANGEADDR]; omega) (by simp only [NETDEV_CHANGEMTU]; omega)
      (by
        rintro ⟨hd, he⟩
        have := hge.2 hd
        simp only [NETDEV_PRECHANGEMTU] at he
        omega)
      (by simp only [NETDEV_PRE_TYPE_CHANGE]; omega)
      (by simp only [NETDEV_POST_TYPE_CHANGE]; omega)
      (by simp only [NETDEV_CHANGE]; omega) (by simp only [NETDEV_FEAT_CHANGE]; omega)
  have hhead := (netdev_head_eq h event dev _ hn hname).1
  refine ⟨?_, ?_, ?_⟩
  · simp [cdbg_netdev_event, netdev_line, hhead, hsw, netdev_fmt, fmt_s, fmt_lx_of_lt event h64]
  · simp [cdbg_inetaddr_event, hn, fmt_s, fmt_lx_of_lt event h64]
  · simp [cdbg_inet6addr_event, hn, fmt_s, fmt_lx_of_lt event h64]

/-- Witness of C5 (amended): event code 25 with `ND_END = 24`. -/
theorem C5_unknown_event_empty_name_witness :
    cdbg_netdev_event .changeinfodata 39 true 25 ⟨"eth0", 0, 0, 1500, 1, []⟩
      = some ⟨NOTIFY_DONE,
          ["C: NETDEV DEV: ".toList ++ "eth0".toList ++ " EVENT: NETDEV_".toList
            ++ " (0x".toList ++ Nat.toDigits 16 25 ++ ")".toList ++ "\n".toList]⟩ :=
  (C5_unknown_event_empty_name .changeinfodata 39 25 ⟨"eth0", 0, 0, 1500, 1, []⟩ [] []
    (by decide) (by decide) (by decide)).1

/-- C6: `ND_END` is 24, 23 or 20; `ND_EVENTS` has `ND_END + 2` slots, the last
one the `NULL` terminator; and for every event code either the code is above
`ND_END` and the empty name is used, or it is at most `ND_END` and
`ND_EVENTS[event]` is a name before the terminator, empty only at index 0. -/
theorem C6_event_lookup_in_bounds (h : Headers) (event : Nat) :
    (ND_END .changeinfodata = 24 ∧ ND_END .prechangemtu = 23 ∧ ND_END .join = 20)
      ∧ (ND_EVENTS h).length = ND_END h + 2
      ∧ (ND_EVENTS h)[ND_END h + 1]? = some none
      ∧ ((ND_END h < event ∧ nd_event_name h event = some (some ""))
          ∨ (event ≤ ND_END h ∧ ∃ s : String, (ND_EVENTS h)[event]? = some (some s)
              ∧ nd_event_name h event = some (some s) ∧ (s = "" ↔ event = 0))) := by
  refine ⟨by decide, by cases h <;> decide, by cases h <;> decide, nd_event_name_total h event⟩

/-- C7: the line of `cdbg_netdev_event` begins with `C: NETDEV`, ` DEV: ` and
the device name, ` EVENT: NETDEV_` and the name of the event (the entry of
`ND_EVENTS` for a code up to `ND_END`), ` (0x`, the code in hexadecimal and
`)`, whatever the per-kind fields that follow. -/
theorem C7_always_present_fields (h : Headers) (fc : Int) (event : Nat) (dev : net_device)
    (h64 : event < 2 ^ 64) (hname : dev.name.length < IFNAMSIZ) :
    ∃ (nm : String) (rest : List Char),
      nd_event_name h event = some (some nm)
      ∧ (event ≤ ND_END h → (ND_EVENTS h)[event]? = some (some nm))
      ∧ cdbg_netdev_event h fc true event dev
          = some ⟨NOTIFY_DONE,
              ["C: NETDEV".toList ++ " DEV: ".toList ++ dev.name.toList
                ++ " EVENT: NETDEV_".toList ++ nm.toList
                ++ " (0x".toList ++ Nat.toDigits 16 event ++ ")".toList ++ rest
                ++ "\n".toList]⟩ := by
  obtain ⟨nm, hn, htab⟩ : ∃ nm : String, nd_event_name h event = some (some nm)
      ∧ (event ≤ ND_END h → (ND_EVENTS h)[event]? = some (some nm)) := by
    rcases nd_event_name_total h event with ⟨hgt, hn⟩ | ⟨-, s, hs, hn, -⟩
    · exact ⟨"", hn, fun hle => absurd hgt (Nat.not_lt.2 hle)⟩
    · exact ⟨s, hn, fun _ => hs⟩
  obtain ⟨hhead, hlen⟩ := netdev_head_eq h event dev _ hn hname
  obtain ⟨r, hr⟩ := netdev_switch_keeps_prefix h fc event dev
    (netdev_fmt dev.name (some nm) event) nd_buflen (by rw [nd_buflen_eq]; omega)
  have hline : netdev_line h fc event dev = some (netdev_fmt dev.name (some nm) event ++ r) := by
    unfold netdev_line
    rw [hhead]
    exact hr
  refine ⟨nm, r, hn, htab, ?_⟩
  simp [cdbg_netdev_event, hline, netdev_fmt, fmt_s, fmt_lx_of_lt event h64]

/-- Witness of C7: `NETDEV_CHANGEADDR` on `eth0`. -/
theorem C7_always_present_fields_witness :
    ∃ (nm : String) (rest : List Char),
      nd_event_name .join 8 = some (some nm)
      ∧ (8 ≤ ND_END .join → (ND_EVENTS .join)[8]? = some (some nm))
      ∧ cdbg_netdev_event .join 39 true 8 ⟨"eth0", 0, 0, 1500, 1, [0, 1, 2, 3, 4, 5]⟩
          = some ⟨NOTIFY_DONE,
              ["C: NETDEV".toList ++ " DEV: ".toList ++ "eth0".toList
                ++ " EVENT: NETDEV_".toList ++ nm.toList
                ++ " (0x".toList ++ Nat.toDigits 16 8 ++ ")".toList ++ rest
                ++ "\n".toList]⟩ :=
  C7_always_present_fields .join 39 8 ⟨"eth0", 0, 0, 1500, 1, [0, 1, 2, 3, 4, 5]⟩
    (by decide) (by decide)

/-- C8: for an event that is none of `NETDEV_CHANGEADDR`, `NETDEV_CHANGEMTU`,
`NETDEV_PRECHANGEMTU`, `NETDEV_PRE_TYPE_CHANGE`, `NETDEV_POST_TYPE_CHANGE`,
`NETDEV_CHANGE` and `NETDEV_FEAT_CHANGE`, the line is exactly the always-present
fields, and two devices of the same name give the same result. -/
theorem C8_other_kinds_add_nothing (h : Headers) (fc : Int) (event : Nat) (dev : net_device)
    (h64 : event < 2 ^ 64) (hname : dev.name.length < IFNAMSIZ)
    (hk : event ≠ NETDEV_CHANGEADDR ∧ event ≠ NETDEV_CHANGEMTU
      ∧ event ≠ NETDEV_PRECHANGEMTU
      ∧ event ≠ NETDEV_PRE_TYPE_CHANGE ∧ event ≠ NETDEV_POST_TYPE_CHANGE
      ∧ event ≠ NETDEV_CHANGE ∧ event ≠ NETDEV_FEAT_CHANGE) :
    (∃ nm : String,
      nd_event_name h event = some (some nm)
      ∧ cdbg_netdev_event h fc true event dev
          = some ⟨NOTIFY_DONE,
              ["C: NETDEV DEV: ".toList ++ dev.name.toList ++ " EVENT: NETDEV_".toList
                ++ nm.toList ++ " (0x".toList ++ Nat.toDigits 16 event ++ ")".toList
                ++ "\n".toList]⟩)
      ∧ ∀ (flags features type : Nat) (mtu : Int) (dev_addr : List Nat),
          cdbg_netdev_event h fc true event ⟨dev.name, flags, features, mtu, type, dev_addr⟩
            = cdbg_netdev_event h fc true event dev := by
  obtain ⟨k1, k2, k3, k4, k5, k6, k7⟩ := hk
  have hsw : ∀ (d : net_device) buf, netdev_switch h fc event d buf nd_buflen = some buf :=
    fun d buf => netdev_switch_default h fc event d buf nd_buflen k1 k2 (fun c => k3 c.2)
      k4 k5 k6 k7
  constructor
  · obtain ⟨nm, hn⟩ : ∃ nm : String, nd_event_name h event = some (some nm) := by
      rcases nd_event_name_total h event with ⟨-, hn⟩ | ⟨-, s, -, hn, -⟩
      · exact ⟨"", hn⟩
      · exact ⟨s, hn⟩
    have hhead := (netdev_head_eq h event dev _ hn hname).1
    refine ⟨nm, hn, ?_⟩
    simp [cdbg_netdev_event, netdev_line, hhead, hsw, netdev_fmt, fmt_s, fmt_lx_of_lt event h64]
  · intro flags features type mtu dev_addr
    simp [cdbg_netdev_event, netdev_line, netdev_head, hsw]

/-- Witness of C8: `NETDEV_UP` on `eth0`. -/
theorem C8_other_kinds_add_nothing_witness :
    cdbg_netdev_event .prechangemtu 39 true 1 ⟨"eth0", 0x1043, 7, 1500, 1, [0, 1, 2, 3, 4, 5]⟩
      = cdbg_netdev_event .prechangemtu 39 true 1 ⟨"eth0", 0, 0, 0, 0, []⟩ :=
  (C8_other_kinds_add_nothing .prechangemtu 39 1 ⟨"eth0", 0, 0, 0, 0, []⟩
    (by decide) (by decide) (by decide)).2 0x1043 7 1 1500 [0, 1, 2, 3, 4, 5]

/-- C9: `NETDEV_CHANGEMTU` gives the always-present fields followed by
` NEW MTU: ` and the MTU in decimal; where the headers define it,
`NETDEV_PRECHANGEMTU` gives them followed by ` OLD MTU: ` and the MTU in
decimal. -/
theorem C9_mtu_label (h : Headers) (fc : Int) (dev : net_device)
    (hname : dev.name.length < IFNAMSIZ) (h0 : -2 ^ 31 ≤ dev.mtu) (h1 : dev.mtu < 2 ^ 31) :
    cdbg_netdev_event h fc true NETDEV_CHANGEMTU dev
        = some ⟨NOTIFY_DONE,
            ["C: NETDEV DEV: ".toList ++ dev.name.toList
              ++ " EVENT: NETDEV_CHANGEMTU (0x7)".toList
              ++ " NEW MTU: ".toList ++ (Int.repr dev.mtu).toList ++ "\n".toList]⟩
      ∧ (defined_PRECHANGEMTU h = true →
          cdbg_netdev_event h fc true NETDEV_PRECHANGEMTU dev
            = some ⟨NOTIFY_DONE,
                ["C: NETDEV DEV: ".toList ++ dev.name.toList
                  ++ " EVENT: NETDEV_PRECHANGEMTU (0x17)".toList
                  ++ " OLD MTU: ".toList ++ (Int.repr dev.mtu).toList ++ "\n".toList]⟩) := by
  have hlen := fmt_d_length dev.mtu
  have hd := fmt_d_of_int dev.mtu h0 h1
  constructor
  · have hn : nd_event_name h NETDEV_CHANGEMTU = some (some "CHANGEMTU") := by
      cases h <;> rfl
    rw [netdev_event_of_switch h fc NETDEV_CHANGEMTU dev "CHANGEMTU"
      (" NEW MTU: ".toList ++ fmt_d dev.mtu) hn hname
      (by rw [List.length_append]; have : (" NEW MTU: ".toList).length = 10 := rfl; omega)
      (fun buf => by simp [netdev_switch, NETDEV_CHANGEMTU, NETDEV_CHANGEADDR])]
    have hx : fmt_lx NETDEV_CHANGEMTU = ['7'] := by decide
    simp [netdev_fmt, fmt_s, hx, hd]
  · intro hdef
    have hn : nd_event_name h NETDEV_PRECHANGEMTU = some (some "PRECHANGEMTU") := by
      cases h
      · exact absurd hdef (by decide)
      · rfl
      · rfl
    rw [netdev_event_of_switch h fc NETDEV_PRECHANGEMTU dev "PRECHANGEMTU"
      (" OLD MTU: ".toList ++ fmt_d dev.mtu) hn hname
      (by rw [List.length_append]; have : (" OLD MTU: ".toList).length = 10 := rfl; omega)
      (fun buf => by
        simp [netdev_switch, NETDEV_PRECHANGEMTU, NETDEV_CHANGEMTU, NETDEV_CHANGEADDR, hdef])]
    have hx : fmt_lx NETDEV_PRECHANGEMTU = ['1', '7'] := by decide
    simp [netdev_fmt, fmt_s, hx, hd]

/-- Witness of C9: the post-change event with MTU 1500 on `eth0`, and the
pre-change event under headers that define it. -/
theorem C9_mtu_label_witness :
    cdbg_netdev_event .changeinfodata 39 true NETDEV_CHANGEMTU ⟨"eth0", 0, 0, 1500, 1, []⟩
        = some ⟨NOTIFY_DONE,
            ["C: NETDEV DEV: eth0 EVENT: NETDEV_CHANGEMTU (0x7) NEW MTU: 1500\n".toList]⟩
      ∧ cdbg_netdev_event .changeinfodata 39 true NETDEV_PRECHANGEMTU
          ⟨"eth0", 0, 0, 1500, 1, []⟩
        = some ⟨NOTIFY_DONE,
            ["C: NETDEV DEV: eth0 EVENT: NETDEV_PRECHANGEMTU (0x17) OLD MTU: 1500\n".toList]⟩ :=
  ⟨(C9_mtu_label .changeinfodata 39 ⟨"eth0", 0, 0, 1500, 1, []⟩
      (by decide) (by decide) (by decide)).1,
   (C9_mtu_label .changeinfodata 39 ⟨"eth0", 0, 0, 1500, 1, []⟩
      (by decide) (by decide) (by decide)).2 (by decide)⟩

/-- C10: `NETDEV_PRE_TYPE_CHANGE` gives the always-present fields followed by
` OLD TYPE: 0x` and the device type in hexadecimal, `NETDEV_POST_TYPE_CHANGE`
gives them followed by ` NEW TYPE: 0x` and the type in hexadecimal. -/
theorem C10_type_label (h : Headers) (fc : Int) (dev : net_device)
    (hname : dev.name.length < IFNAMSIZ) (ht : dev.type < 2 ^ 32) :
    cdbg_netdev_event h fc true NETDEV_PRE_TYPE_CHANGE dev
        = some ⟨NOTIFY_DONE,
            ["C: NETDEV DEV: ".toList ++ dev.name.toList
              ++ " EVENT: NETDEV_PRE_TYPE_CHANGE (0xe)".toList
              ++ " OLD TYPE: 0x".toList ++ Nat.toDigits 16 dev.type ++ "\n".toList]⟩
      ∧ cdbg_netdev_event h fc true NETDEV_POST_TYPE_CHANGE dev
        = some ⟨NOTIFY_DONE,
            ["C: NETDEV DEV: ".toList ++ dev.name.toList
              ++ " EVENT: NETDEV_POST_TYPE_CHANGE (0xf)".toList
              ++ " NEW TYPE: 0x".toList ++ Nat.toDigits 16 dev.type ++ "\n".toList]⟩ := by
  have hlen := fmt_x_length dev.type
  have hd := fmt_x_of_lt dev.type ht
  constructor
  · have hn : nd_event_name h NETDEV_PRE_TYPE_CHANGE = some (some "PRE_TYPE_CHANGE") := by
      cases h <;> rfl
    rw [netdev_event_of_switch h fc NETDEV_PRE_TYPE_CHANGE dev "PRE_TYPE_CHANGE"
      (" OLD TYPE: 0x".toList ++ fmt_x dev.type) hn hname
      (by rw [List.length_append]; have : (" OLD TYPE: 0x".toList).length = 13 := rfl; omega)
      (fun buf => by
        simp [netdev_switch, NETDEV_PRE_TYPE_CHANGE, NETDEV_POST_TYPE_CHANGE,
          NETDEV_PRECHANGEMTU, NETDEV_CHANGEMTU, NETDEV_CHANGEADDR])]
    have hx : fmt_lx NETDEV_PRE_TYPE_CHANGE = ['e'] := by decide
    simp [netdev_fmt, fmt_s, hx, hd]
  · have hn : nd_event_name h NETDEV_POST_TYPE_CHANGE = some (some "POST_TYPE_CHANGE") := by
      cases h <;> rfl
    rw [netdev_event_of_switch h fc NETDEV_POST_TYPE_CHANGE dev "POST_TYPE_CHANGE"
      (" NEW TYPE: 0x".toList ++ fmt_x dev.type) hn hname
      (by rw [List.length_append]; have : (" NEW TYPE: 0x".toList).length = 13 := rfl; omega)
      (fun buf => by
        simp [netdev_switch, NETDEV_PRE_TYPE_CHANGE, NETDEV_POST_TYPE_CHANGE,
          NETDEV_PRECHANGEMTU, NETDEV_CHANGEMTU, NETDEV_CHANGEADDR])]
    have hx : fmt_lx NETDEV_POST_TYPE_CHANGE = ['f'] := by decide
    simp [netdev_fmt, fmt_s, hx, hd]

/-- Witness of C10: an Ethernet device (`ARPHRD_ETHER = 1`) that becomes an
InfiniBand one (`ARPHRD_INFINIBAND = 32`). -/
theorem C10_type_label_witness :
    cdbg_netdev_event .join 39 true NETDEV_PRE_TYPE_CHANGE ⟨"bond0", 0, 0, 1500, 1, []⟩
        = some ⟨NOTIFY_DONE,
            ["C: NETDEV DEV: bond0 EVENT: NETDEV_PRE_TYPE_CHANGE (0xe) OLD TYPE: 0x1\n".toList]⟩
      ∧ cdbg_netdev_event .join 39 true NETDEV_POST_TYPE_CHANGE ⟨"bond0", 0, 0, 1500, 32, []⟩
        = some ⟨NOTIFY_DONE,
            ["C: NETDEV DEV: bond0 EVENT: NETDEV_POST_TYPE_CHANGE (0xf) NEW TYPE: 0x20\n".toList
            ]⟩ :=
  ⟨(C10_type_label .join 39 ⟨"bond0", 0, 0, 1500, 1, []⟩ (by decide) (by decide)).1,
   (C10_type_label .join 39 ⟨"bond0", 0, 0, 1500, 32, []⟩ (by decide) (by decide)).2⟩

/-! ## Tables with a terminator -/

/-- A table that has a `NULL` slot is its names, the `NULL`, and a remainder. -/
theorem table_names_split : ∀ t : List (Option String), none ∈ t →
    ∃ rest, t = (table_names t).map some ++ none :: rest := by
  intro t
  induction t with
  | nil => intro h; simp at h
  | cons a t ih =>
    intro h
    cases a with
    | none => exact ⟨t, by simp [table_names]⟩
    | some s =>
      obtain ⟨rest, hr⟩ := ih (by simpa using h)
      exact ⟨rest, by simp only [table_names, List.map_cons, List.cons_append]; rw [← hr]⟩

/-- Result of `cdbg_get_strings` on a table that has a `NULL` slot. -/
theorem get_strings_table (bits : Nat) (bitlen : Int) (t : List (Option String))
    (buf : List Char) (buflen : Int) (hterm : none ∈ t) (hb : (buf.length : Int) < buflen) :
    cdbg_get_strings bits bitlen t buf buflen
      = some ((buf ++ render_names bits (min (to_size_t bitlen % 65) (table_names t).length)
          (table_names t)).take (buflen - 1).toNat) := by
  obtain ⟨rest, hr⟩ := table_names_split t hterm
  have h := get_strings_terminated bits bitlen (table_names t) rest buf buflen hb
  rw [← hr] at h
  exact h

/-- The rendered names take at most `m` characters each. -/
theorem render_names_length (bits bound m : Nat) (names : List String)
    (hm : ∀ s ∈ names, s.length + 1 ≤ m) (hbound : bound ≤ names.length) :
    (render_names bits bound names).length ≤ bound * m := by
  unfold render_names
  have key : ∀ ps : List Nat, (∀ i ∈ ps, i < names.length) →
      (ps.flatMap fun i => ' ' :: (names.getD i "").toList).length ≤ ps.length * m := by
    intro ps
    induction ps with
    | nil => intro _; simp
    | cons p ps ih =>
      intro hp
      have hlt : p < names.length := hp p (by simp)
      have h1 : (names.getD p "").length + 1 ≤ m := by
        apply hm
        rw [List.getD_eq_getElem?_getD, List.getElem?_eq_getElem hlt]
        exact List.getElem_mem hlt
      have h2 := ih (fun i hi => hp i (by simp [hi]))
      have h3 : (names.getD p "").toList.length = (names.getD p "").length := rfl
      simp only [List.flatMap_cons, List.length_append, List.length_cons, h3]
      rw [Nat.add_mul]
      omega
  have hk := key ((List.range bound).filter fun i => bits.testBit i) (by
    intro i hi
    have := (mem_scan bits bound i hi).1
    omega)
  have hl : ((List.range bound).filter fun i => bits.testBit i).length ≤ bound := by
    calc _ ≤ (List.range bound).length := List.length_filter_le _ _
      _ = bound := List.length_range _
  calc _ ≤ ((List.range bound).filter fun i => bits.testBit i).length * m := hk
    _ ≤ bound * m := Nat.mul_le_mul_right _ hl

/-- The rendered names depend only on the bits below the bound. -/
theorem render_names_congr (b1 b2 bound : Nat) (names : List String)
    (h : ∀ i, i < bound → b1.testBit i = b2.testBit i) :
    render_names b1 bound names = render_names b2 bound names := by
  unfold render_names
  congr 1
  apply List.filter_congr
  intro i hi
  exact h i (List.mem_range.1 hi)

/-! ## The bitmask cases of the switch -/

theorem table_names_flags_length : (table_names netdev_flags).length = 19 := by decide

theorem table_names_features_length : (table_names netdev_features_strings).length = 39 := by
  decide

/-- Every name of the two bitmask tables, with its separating space, takes at
most 32 characters. -/
theorem table_name_width :
    (∀ s ∈ table_names netdev_flags, s.length + 1 ≤ 32)
      ∧ (∀ s ∈ table_names netdev_features_strings, s.length + 1 ≤ 32) := by
  constructor <;> decide

/-- The case `NETDEV_CHANGE` of the switch in a buffer of at least 1408 bytes
that holds at most the always-present fields. -/
theorem netdev_switch_change (h : Headers) (fc : Int) (dev : net_device) (buf : List Char)
    (size : Int) (hsize : 1408 ≤ size) (hbuf : buf.length ≤ 82) :
    netdev_switch h fc NETDEV_CHANGE dev buf size
      = some (buf ++ (" FLAGS: (0x".toList ++ fmt_x dev.flags ++ ")".toList
          ++ render_names dev.flags (min 32 (table_names netdev_flags).length)
              (table_names netdev_flags))) := by
  have hsw : netdev_switch h fc NETDEV_CHANGE dev buf size
      = cdbg_get_strings dev.flags (4 * 8) netdev_flags
          (snprintf buf size (buf ++ " FLAGS: (0x".toList ++ fmt_x dev.flags ++ ")".toList))
          size := by
    unfold netdev_switch
    rw [if_neg (by decide), if_neg (by simp [NETDEV_CHANGE, NETDEV_PRECHANGEMTU,
      NETDEV_CHANGEMTU]), if_neg (by decide), if_pos rfl]
  have e1 : (" FLAGS: (0x".toList).length = 11 := rfl
  have e2 : (")".toList).length = 1 := rfl
  have hx := fmt_x_length dev.flags
  have hr := render_names_length dev.flags (min 32 (table_names netdev_flags).length) 32
    (table_names netdev_flags) table_name_width.1 (Nat.min_le_right _ _)
  have hmin : min 32 (table_names netdev_flags).length ≤ 19 := by
    rw [table_names_flags_length]
    decide
  have hr2 : (render_names dev.flags (min 32 (table_names netdev_flags).length)
      (table_names netdev_flags)).length ≤ 19 * 32 :=
    le_trans hr (Nat.mul_le_mul_right _ hmin)
  have hw : to_size_t (4 * 8) % 65 = 32 := by decide
  rw [hsw, snprintf_fits _ _ _ (by simp only [List.length_append, e1, e2]; omega),
    get_strings_table _ _ _ _ _ (by decide) (by simp only [List.length_append, e1, e2]; omega),
    hw, List.take_of_length_le (by simp only [List.length_append, e1, e2]; omega)]
  simp only [List.append_assoc]

/-- The case `NETDEV_FEAT_CHANGE` of the switch in a buffer of at least 1408
bytes that holds at most the always-present fields. -/
theorem netdev_switch_feat (h : Headers) (fc : Int) (dev : net_device) (buf : List Char)
    (size : Int) (hsize : 1408 ≤ size) (hbuf : buf.length ≤ 82) :
    netdev_switch h fc NETDEV_FEAT_CHANGE dev buf size
      = some (buf ++ (" FEATURES: (0x".toList ++ fmt_llx (dev.features % 2 ^ 64) ++ ")".toList
          ++ render_names (dev.features % 2 ^ 64)
              (min (to_size_t fc % 65) (table_names netdev_features_strings).length)
              (table_names netdev_features_strings))) := by
  have hsw : netdev_switch h fc NETDEV_FEAT_CHANGE dev buf size
      = cdbg_get_strings (dev.features % 2 ^ 64) fc netdev_features_strings
          (snprintf buf size
            (buf ++ " FEATURES: (0x".toList ++ fmt_llx (dev.features % 2 ^ 64) ++ ")".toList))
          size := by
    unfold netdev_switch
    rw [if_neg (by decide), if_neg (by simp [NETDEV_FEAT_CHANGE, NETDEV_PRECHANGEMTU,
      NETDEV_CHANGEMTU]), if_neg (by decide), if_neg (by decide), if_pos rfl]
  have e1 : (" FEATURES: (0x".toList).length = 14 := rfl
  have e2 : (")".toList).length = 1 := rfl
  have hx : (fmt_llx (dev.features % 2 ^ 64)).length ≤ 16 := fmt_lx_length _
  have hr := render_names_length (dev.features % 2 ^ 64)
    (min (to_size_t fc % 65) (table_names netdev_features_strings).length) 32
    (table_names netdev_features_strings) table_name_width.2 (Nat.min_le_right _ _)
  have hmin : min (to_size_t fc % 65) (table_names netdev_features_strings).length ≤ 39 := by
    rw [table_names_features_length]
    exact Nat.min_le_right _ _
  have hr2 : (render_names (dev.features % 2 ^ 64)
      (min (to_size_t fc % 65) (table_names netdev_features_strings).length)
      (table_names netdev_features_strings)).length ≤ 39 * 32 :=
    le_trans hr (Nat.mul_le_mul_right _ hmin)
  rw [hsw, snprintf_fits _ _ _ (by simp only [List.length_append, e1, e2]; omega),
    get_strings_table _ _ _ _ _ (by decide) (by simp only [List.length_append, e1, e2]; omega),
    List.take_of_length_le (by simp only [List.length_append, e1, e2]; omega)]
  simp only [List.append_assoc]

/-- The line of a case of the switch that appends `x` to the always-present
fields. -/
theorem netdev_event_of_tail (h : Headers) (fc : Int) (event : Nat) (dev : net_device)
    (nm : String) (x : List Char)
    (hn : nd_event_name h event = some (some nm)) (hname : dev.name.length < IFNAMSIZ)
    (hsw : ∀ buf : List Char, buf.length ≤ 82 →
      netdev_switch h fc event dev buf nd_buflen = some (buf ++ x)) :
    cdbg_netdev_event h fc true event dev
      = some ⟨NOTIFY_DONE, [netdev_fmt dev.name (some nm) event ++ x ++ ['\n']]⟩ := by
  obtain ⟨hhead, hlen⟩ := netdev_head_eq h event dev _ hn hname
  have hline : netdev_line h fc event dev = some (netdev_fmt dev.name (some nm) event ++ x) := by
    unfold netdev_line
    rw [hhead]
    exact hsw _ hlen
  simp [cdbg_netdev_event, hline]

/-- With every bit set the renderer lists the first `bound` names. -/
theorem render_names_all_ones (bound : Nat) (names : List String) (h64 : bound ≤ 64)
    (hN : bound ≤ names.length) :
    render_names (2 ^ 64 - 1) bound names
      = (names.take bound).flatMap fun s => ' ' :: s.toList := by
  unfold render_names
  have hf : ((List.range bound).filter fun i => (2 ^ 64 - 1 : Nat).testBit i)
      = List.range bound := by
    rw [List.filter_eq_self]
    intro i hi
    have : i < bound := List.mem_range.1 hi
    rw [Nat.testBit_two_pow_sub_one]
    exact decide_eq_true (by omega)
  have hm : (List.range bound).map (fun i => names.getD i "") = names.take bound := by
    apply List.ext_getElem
    · simp [List.length_take, hN]
    · intro i h1 h2
      have hi : i < bound := by simpa using h1
      have hi2 : i < names.length := by omega
      simp [List.getD_eq_getElem?_getD, List.getElem?_eq_getElem hi2, List.getElem_take]
  rw [hf, ← hm, List.flatMap_map]

/-! ## The bitmask cases of the event renderer -/

/-- C11: for `NETDEV_CHANGE` the line is the always-present fields, then
` FLAGS: (0x`, the flags in hexadecimal and `)`, then the names decoded from
the flags against `netdev_flags` with bit width 32. -/
theorem C11_change_flags (h : Headers) (fc : Int) (dev : net_device)
    (hname : dev.name.length < IFNAMSIZ) (hf : dev.flags < 2 ^ 32) :
    cdbg_netdev_event h fc true NETDEV_CHANGE dev
      = some ⟨NOTIFY_DONE,
          ["C: NETDEV DEV: ".toList ++ dev.name.toList
            ++ " EVENT: NETDEV_CHANGE (0x4)".toList
            ++ " FLAGS: (0x".toList ++ Nat.toDigits 16 dev.flags ++ ")".toList
            ++ render_names dev.flags (min 32 (table_names netdev_flags).length)
                (table_names netdev_flags)
            ++ "\n".toList]⟩ := by
  have hn : nd_event_name h NETDEV_CHANGE = some (some "CHANGE") := by
    cases h <;> rfl
  rw [netdev_event_of_tail h fc NETDEV_CHANGE dev "CHANGE" _ hn hname
    (fun buf hbuf => netdev_switch_change h fc dev buf nd_buflen (by rw [nd_buflen_eq]) hbuf)]
  have hx : fmt_lx NETDEV_CHANGE = ['4'] := by decide
  simp [netdev_fmt, fmt_s, hx, fmt_x_of_lt dev.flags hf]

/-- Witness of C11: flags `0x1043` on `eth0`; bit 12 is decoded because
`netdev_flags` has a 13th entry, and is not against a table of seven names. -/
theorem C11_change_flags_witness :
    cdbg_netdev_event .changeinfodata 39 true NETDEV_CHANGE ⟨"eth0", 0x1043, 0, 1500, 1, []⟩
        = some ⟨NOTIFY_DONE,
            ["C: NETDEV DEV: ".toList ++ "eth0".toList
              ++ " EVENT: NETDEV_CHANGE (0x4)".toList
              ++ " FLAGS: (0x".toList ++ Nat.toDigits 16 0x1043 ++ ")".toList
              ++ " IFF_UP IFF_BROADCAST IFF_RUNNING IFF_MULTICAST".toList
              ++ "\n".toList]⟩
      ∧ cdbg_get_strings 0x1043 32
          [some "IFF_UP", some "IFF_BROADCAST", some "IFF_DEBUG", some "IFF_LOOPBACK",
            some "IFF_POINTOPOINT", some "IFF_NOTRAILERS", some "IFF_RUNNING", none] [] 1408
        = some " IFF_UP IFF_BROADCAST IFF_RUNNING".toList :=
  ⟨C11_change_flags .changeinfodata 39 ⟨"eth0", 0x1043, 0, 1500, 1, []⟩
      (by decide) (by decide),
   by decide⟩

set_option maxRecDepth 100000 in
/-- C12, as stated, fails: `netdev_features_strings` holds 39 names, and with
`NETDEV_FEATURE_COUNT = 39` an all-ones feature mask is decoded into all 39 of
them, `busy-poll` included, not into 38. -/
theorem C12_counterexample :
    cdbg_netdev_event .changeinfodata 39 true NETDEV_FEAT_CHANGE
        ⟨"eth0", 0, 2 ^ 64 - 1, 1500, 1, []⟩
      = some ⟨NOTIFY_DONE,
          ["C: NETDEV DEV: eth0 EVENT: NETDEV_FEAT_CHANGE (0xb)".toList
            ++ " FEATURES: (0xffffffffffffffff)".toList
            ++ ((table_names netdev_features_strings).flatMap fun s => ' ' :: s.toList)
            ++ "\n".toList]⟩
      ∧ (table_names netdev_features_strings).length = 39
      ∧ (table_names netdev_features_strings)[38]? = some "busy-poll"
      ∧ cdbg_get_strings (2 ^ 64 - 1) 39 netdev_features_strings [] nd_buflen
          ≠ some (((table_names netdev_features_strings).take 38).flatMap
              fun s => ' ' :: s.toList) := by
  decide

/-- C12 (amended): for `NETDEV_FEAT_CHANGE` with an all-ones 64-bit feature
mask and `NETDEV_FEATURE_COUNT` between 0 and 64, the line lists, in table
order, exactly the first `min NETDEV_FEATURE_COUNT 39` names of
`netdev_features_strings`. -/
theorem C12_all_ones_features (h : Headers) (fc : Int) (dev : net_device)
    (hname : dev.name.length < IFNAMSIZ) (hfc0 : 0 ≤ fc) (hfc1 : fc ≤ 64)
    (hall : dev.features = 2 ^ 64 - 1) :
    cdbg_netdev_event h fc true NETDEV_FEAT_CHANGE dev
        = some ⟨NOTIFY_DONE,
            ["C: NETDEV DEV: ".toList ++ dev.name.toList
              ++ " EVENT: NETDEV_FEAT_CHANGE (0xb)".toList
              ++ " FEATURES: (0xffffffffffffffff)".toList
              ++ (((table_names netdev_features_strings).take fc.toNat).flatMap
                  fun s => ' ' :: s.toList)
              ++ "\n".toList]⟩
      ∧ ((table_names netdev_features_strings).take fc.toNat).length = min fc.toNat 39 := by
  have hn : nd_event_name h NETDEV_FEAT_CHANGE = some (some "FEAT_CHANGE") := by
    cases h <;> rfl
  have hw : to_size_t fc % 65 = fc.toNat := by
    rw [to_size_t_of_nonneg fc hfc0 (by omega)]
    omega
  have hmod : dev.features % 2 ^ 64 = 2 ^ 64 - 1 := by
    rw [hall]
    norm_num
  have hy : fmt_llx (2 ^ 64 - 1) = "ffffffffffffffff".toList := by decide
  have hlen := table_names_features_length
  have htake : ((table_names netdev_features_strings).take fc.toNat)
      = (table_names netdev_features_strings).take
          (min fc.toNat (table_names netdev_features_strings).length) := by
    rw [List.take_eq_take]
    simp
  constructor
  · rw [netdev_event_of_tail h fc NETDEV_FEAT_CHANGE dev "FEAT_CHANGE" _ hn hname
      (fun buf hbuf => netdev_switch_feat h fc dev buf nd_buflen (by rw [nd_buflen_eq]) hbuf),
      hmod, hw, render_names_all_ones _ _ (by omega) (Nat.min_le_right _ _), ← htake, hy]
    have hx : fmt_lx NETDEV_FEAT_CHANGE = ['b'] := by decide
    simp [netdev_fmt, fmt_s, hx]
  · rw [List.length_take, hlen]

/-- Witness of C12 (amended): `NETDEV_FEATURE_COUNT = 39`. -/
theorem C12_all_ones_features_witness :
    cdbg_netdev_event .changeinfodata 39 true NETDEV_FEAT_CHANGE
        ⟨"eth0", 0, 2 ^ 64 - 1, 1500, 1, []⟩
      = some ⟨NOTIFY_DONE,
          ["C: NETDEV DEV: ".toList ++ "eth0".toList
            ++ " EVENT: NETDEV_FEAT_CHANGE (0xb)".toList
            ++ " FEATURES: (0xffffffffffffffff)".toList
            ++ (((table_names netdev_features_strings).take (39 : Int).toNat).flatMap
                fun s => ' ' :: s.toList)
            ++ "\n".toList]⟩ :=
  (C12_all_ones_features .changeinfodata 39 ⟨"eth0", 0, 2 ^ 64 - 1, 1500, 1, []⟩
    (by decide) (by decide) (by decide) (by decide)).1

/-! ## Buffer size -/

theorem fmt_pM_length (a : List Nat) : (fmt_pM a).length = 17 := rfl

/-- An `snprintf` of at most 64 more characters after the always-present fields
is not cut in a buffer of at least 1408 bytes. -/
theorem snprintf_small (buf x : List Char) (size : Int) (hsize : 1408 ≤ size)
    (hbuf : buf.length ≤ 82) (hx : x.length ≤ 64) :
    snprintf buf size (buf ++ x) = buf ++ x :=
  snprintf_fits _ _ _ (by rw [List.length_append]; omega)

/-- In a buffer of at least 1408 bytes every case of the switch appends its
whole field, of at most 1325 characters, to the always-present fields. -/
theorem netdev_switch_full (h : Headers) (fc : Int) (event : Nat) (dev : net_device) :
    ∃ tail : List Char, tail.length ≤ 1325 ∧
      ∀ (size : Int) (buf : List Char), 1408 ≤ size → buf.length ≤ 82 →
        netdev_switch h fc event dev buf size = some (buf ++ tail) := by
  by_cases c1 : event = NETDEV_CHANGEADDR
  · have hl : (" MAC: ".toList ++ fmt_pM dev.dev_addr).length ≤ 64 := by
      rw [List.length_append, fmt_pM_length]
      decide
    refine ⟨" MAC: ".toList ++ fmt_pM dev.dev_addr, by omega, fun size buf hs hb => ?_⟩
    unfold netdev_switch
    rw [if_pos c1, List.append_assoc, snprintf_small _ _ _ hs hb hl]
  by_cases c2 : (defined_PRECHANGEMTU h = true ∧ event = NETDEV_PRECHANGEMTU)
      ∨ event = NETDEV_CHANGEMTU
  · have h3 : ((if event = NETDEV_CHANGEMTU then "NEW" else "OLD").toList).length = 3 := by
      split <;> rfl
    have hl : (" ".toList ++ ((if event = NETDEV_CHANGEMTU then "NEW" else "OLD").toList
        ++ (" MTU: ".toList ++ fmt_d dev.mtu))).length ≤ 64 := by
      have e1 : (" ".toList).length = 1 := rfl
      have e2 : (" MTU: ".toList).length = 6 := rfl
      have := fmt_d_length dev.mtu
      simp only [List.length_append, h3, e1, e2]
      omega
    refine ⟨_, le_trans hl (by decide), fun size buf hs hb => ?_⟩
    unfold netdev_switch
    rw [if_neg c1, if_pos c2]
    simp only [List.append_assoc]
    rw [snprintf_small _ _ _ hs hb hl]
  by_cases c3 : event = NETDEV_PRE_TYPE_CHANGE ∨ event = NETDEV_POST_TYPE_CHANGE
  · have h3 : ((if event = NETDEV_POST_TYPE_CHANGE then "NEW" else "OLD").toList).length
        = 3 := by
      split <;> rfl
    have hl : (" ".toList ++ ((if event = NETDEV_POST_TYPE_CHANGE then "NEW" else "OLD").toList
        ++ (" TYPE: 0x".toList ++ fmt_x dev.type))).length ≤ 64 := by
      have e1 : (" ".toList).length = 1 := rfl
      have e2 : (" TYPE: 0x".toList).length = 9 := rfl
      have := fmt_x_length dev.type
      simp only [List.length_append, h3, e1, e2]
      omega
    refine ⟨_, le_trans hl (by decide), fun size buf hs hb => ?_⟩
    unfold netdev_switch
    rw [if_neg c1, if_neg c2, if_pos c3]
    simp only [List.append_assoc]
    rw [snprintf_small _ _ _ hs hb hl]
  by_cases c4 : event = NETDEV_CHANGE
  · subst c4
    refine ⟨_, ?_, fun size buf hs hb => netdev_switch_change h fc dev buf size hs hb⟩
    have e1 : (" FLAGS: (0x".toList).length = 11 := rfl
    have e2 : (")".toList).length = 1 := rfl
    have hx := fmt_x_length dev.flags
    have hr := render_names_length dev.flags (min 32 (table_names netdev_flags).length) 32
      (table_names netdev_flags) table_name_width.1 (Nat.min_le_right _ _)
    have hmin : min 32 (table_names netdev_flags).length ≤ 19 := by
      rw [table_names_flags_length]
      decide
    have hr2 := le_trans hr (Nat.mul_le_mul_right 32 hmin)
    simp only [List.length_append, e1, e2]
    omega
  by_cases c5 : event = NETDEV_FEAT_CHANGE
  · subst c5
    refine ⟨_, ?_, fun size buf hs hb => netdev_switch_feat h fc dev buf size hs hb⟩
    have e1 : (" FEATURES: (0x".toList).length = 14 := rfl
    have e2 : (")".toList).length = 1 := rfl
    have hx : (fmt_llx (dev.features % 2 ^ 64)).length ≤ 16 := fmt_lx_length _
    have hr := render_names_length (dev.features % 2 ^ 64)
      (min (to_size_t fc % 65) (table_names netdev_features_strings).length) 32
      (table_names netdev_features_strings) table_name_width.2 (Nat.min_le_right _ _)
    have hmin : min (to_size_t fc % 65) (table_names netdev_features_strings).length ≤ 39 := by
      rw [table_names_features_length]
      exact Nat.min_le_right _ _
    have hr2 := le_trans hr (Nat.mul_le_mul_right 32 hmin)
    simp only [List.length_append, e1, e2]
    omega
  · refine ⟨[], by simp, fun size buf hs hb => ?_⟩
    unfold netdev_switch
    rw [if_neg c1, if_neg c2, if_neg c3, if_neg c4, if_neg c5, List.append_nil]

/-- The name lookup never fails. -/
theorem nd_event_name_some (h : Headers) (event : Nat) :
    ∃ nm : String, nd_event_name h event = some (some nm)
      ∧ (event ≤ ND_END h → (ND_EVENTS h)[event]? = some (some nm)) := by
  rcases nd_event_name_total h event with ⟨hgt, hn⟩ | ⟨-, s, hs, hn, -⟩
  · exact ⟨"", hn, fun hle => absurd hgt (Nat.not_lt.2 hle)⟩
  · exact ⟨s, hn, fun _ => hs⟩

/-- C13: `buflen` is `128 + 32 * 40 = 1408`; each feature name with its space
takes at most 32 characters and the fixed part of a feature line at most 128;
and for a device name of at most 15 characters the line of every event is
shorter than `buflen` and is the one a larger buffer would hold, so that no
`snprintf` cuts it. -/
theorem C13_buffer_large_enough (h : Headers) (fc : Int) (event : Nat) (dev : net_device)
    (hname : dev.name.length < IFNAMSIZ) :
    nd_buflen = 128 + 32 * (netdev_features_strings.length : Int)
      ∧ nd_buflen = 1408
      ∧ (∀ s ∈ table_names netdev_features_strings, (' ' :: s.toList).length ≤ 32)
      ∧ (∀ nm, nd_event_name h event = some nm →
          (netdev_fmt dev.name nm event ++ " FEATURES: (0x".toList
            ++ fmt_llx (dev.features % 2 ^ 64) ++ ")".toList).length ≤ 128)
      ∧ ∃ line, netdev_line h fc event dev = some line
          ∧ (line.length : Int) < nd_buflen
          ∧ ∀ size : Int, nd_buflen ≤ size →
              netdev_line_sized size h fc event dev = some line := by
  refine ⟨by decide, nd_buflen_eq, ?_, ?_, ?_⟩
  · intro s hs
    have := table_name_width.2 s hs
    have e : s.toList.length = s.length := rfl
    rw [List.length_cons, e]
    exact this
  · intro nm hn
    have h1 := (netdev_head_eq h event dev nm hn hname).2
    have e1 : (" FEATURES: (0x".toList).length = 14 := rfl
    have e2 : (")".toList).length = 1 := rfl
    have hx : (fmt_llx (dev.features % 2 ^ 64)).length ≤ 16 := fmt_lx_length _
    simp only [List.length_append, e1, e2]
    omega
  · obtain ⟨nm, hn, -⟩ := nd_event_name_some h event
    obtain ⟨hhead, hlen⟩ := netdev_head_eq h event dev _ hn hname
    obtain ⟨tail, htl, hsw⟩ := netdev_switch_full h fc event dev
    refine ⟨netdev_fmt dev.name (some nm) event ++ tail, ?_, ?_, ?_⟩
    · unfold netdev_line
      rw [hhead]
      exact hsw nd_buflen _ (by rw [nd_buflen_eq]) hlen
    · rw [nd_buflen_eq, List.length_append]
      omega
    · intro size hsize
      rw [nd_buflen_eq] at hsize
      unfold netdev_line_sized
      rw [hn]
      show netdev_switch h fc event dev (snprintf [] size _) size = _
      rw [snprintf_fits _ _ _ (by omega)]
      exact hsw size _ hsize hlen

/-- Witness of C13: a feature change with every feature bit set. -/
theorem C13_buffer_large_enough_witness :
    ∃ line, netdev_line .changeinfodata 64 NETDEV_FEAT_CHANGE
          ⟨"verylongname123", 0, 2 ^ 64 - 1, 1500, 1, []⟩ = some line
      ∧ (line.length : Int) < nd_buflen
      ∧ ∀ size : Int, nd_buflen ≤ size →
          netdev_line_sized size .changeinfodata 64 NETDEV_FEAT_CHANGE
            ⟨"verylongname123", 0, 2 ^ 64 - 1, 1500, 1, []⟩ = some line :=
  (C13_buffer_large_enough .changeinfodata 64 NETDEV_FEAT_CHANGE
    ⟨"verylongname123", 0, 2 ^ 64 - 1, 1500, 1, []⟩ (by decide)).2.2.2.2

/-- C14: for a buffer of `buflen ≥ 1` bytes that holds a string shorter than
`buflen` and a table with a terminator, the content after `cdbg_get_strings`
has at most `buflen - 1` characters and is a prefix of the content that every
buffer large enough to hold it would get. -/
theorem C14_clean_truncation (bits : Nat) (bitlen : Int) (table : List (Option String))
    (buf : List Char) (buflen : Int) (hterm : none ∈ table) (h1 : 1 ≤ buflen)
    (hb : (buf.length : Int) < buflen) :
    ∃ out full : List Char,
      cdbg_get_strings bits bitlen table buf buflen = some out
      ∧ (out.length : Int) ≤ buflen - 1
      ∧ (∀ size : Int, (full.length : Int) < size →
          cdbg_get_strings bits bitlen table buf size = some full)
      ∧ out <+: full := by
  refine ⟨_, buf ++ render_names bits (min (to_size_t bitlen % 65) (table_names table).length)
    (table_names table), get_strings_table bits bitlen table buf buflen hterm hb, ?_, ?_,
    List.take_prefix _ _⟩
  · rw [List.length_take]
    omega
  · intro size hsize
    rw [get_strings_table bits bitlen table buf size hterm
      (by rw [List.length_append] at hsize; omega), List.take_of_length_le (by omega)]

/-- Witness of C14: three flags decoded into a buffer of 12 bytes. -/
theorem C14_clean_truncation_witness :
    ∃ out full : List Char,
      cdbg_get_strings 0x43 32 netdev_flags ['x'] 12 = some out
      ∧ (out.length : Int) ≤ 12 - 1
      ∧ (∀ size : Int, (full.length : Int) < size →
          cdbg_get_strings 0x43 32 netdev_flags ['x'] size = some full)
      ∧ out <+: full :=
  C14_clean_truncation 0x43 32 netdev_flags ['x'] 12 (by decide) (by decide) (by decide)

/-! ## Address events -/

/-- C15: both address callbacks return `NOTIFY_DONE`; they log nothing exactly
when the address record has no interface-device link or the link has no
device, and log exactly one line exactly when the device is resolvable. -/
theorem C15_line_iff_device (h : Headers) (event : Nat) (ifa : in_ifaddr)
    (ifa6 : inet6_ifaddr) :
    (∃ out, cdbg_inetaddr_event h event ifa = some out ∧ out.ret = NOTIFY_DONE
        ∧ (out.log = [] ↔
            (ifa.ifa_dev = none ∨ ∃ d, ifa.ifa_dev = some d ∧ d.dev = none))
        ∧ (out.log.length = 1 ↔ ∃ d dev, ifa.ifa_dev = some d ∧ d.dev = some dev))
      ∧ (∃ out, cdbg_inet6addr_event h event ifa6 = some out ∧ out.ret = NOTIFY_DONE
        ∧ (out.log = [] ↔
            (ifa6.idev = none ∨ ∃ d, ifa6.idev = some d ∧ d.dev = none))
        ∧ (out.log.length = 1 ↔ ∃ d dev, ifa6.idev = some d ∧ d.dev = some dev)) := by
  obtain ⟨nm, hn, -⟩ := nd_event_name_some h event
  constructor
  · obtain ⟨link, addr⟩ := ifa
    cases link with
    | none => exact ⟨⟨NOTIFY_DONE, []⟩, rfl, rfl, by simp, by simp⟩
    | some d =>
      obtain ⟨dv⟩ := d
      cases dv with
      | none => exact ⟨⟨NOTIFY_DONE, []⟩, rfl, rfl, by simp, by simp⟩
      | some dev =>
        obtain ⟨l, hl⟩ : ∃ l, cdbg_inetaddr_event h event ⟨some ⟨some dev⟩, addr⟩
            = some ⟨NOTIFY_DONE, [l]⟩ :=
          ⟨_, by simp only [cdbg_inetaddr_event, Option.bind, hn, Option.map]; rfl⟩
        exact ⟨_, hl, rfl, by simp, by simp⟩
  · obtain ⟨link, addr⟩ := ifa6
    cases link with
    | none => exact ⟨⟨NOTIFY_DONE, []⟩, rfl, rfl, by simp, by simp⟩
    | some d =>
      obtain ⟨dv⟩ := d
      cases dv with
      | none => exact ⟨⟨NOTIFY_DONE, []⟩, rfl, rfl, by simp, by simp⟩
      | some dev =>
        obtain ⟨l, hl⟩ : ∃ l, cdbg_inet6addr_event h event ⟨some ⟨some dev⟩, addr⟩
            = some ⟨NOTIFY_DONE, [l]⟩ :=
          ⟨_, by simp only [cdbg_inet6addr_event, Option.bind, hn, Option.map]; rfl⟩
        exact ⟨_, hl, rfl, by simp, by simp⟩

theorem fmt_pI4_eq (a b c d : Nat) (ha : a < 256) (hb : b < 256) (hc : c < 256)
    (hd : d < 256) :
    fmt_pI4 [a, b, c, d]
      = Nat.toDigits 10 a ++ ".".toList ++ Nat.toDigits 10 b ++ ".".toList
          ++ Nat.toDigits 10 c ++ ".".toList ++ Nat.toDigits 10 d := by
  have e : fmt_pI4 [a, b, c, d]
      = Nat.toDigits 10 (a % 256) ++ ".".toList ++ Nat.toDigits 10 (b % 256) ++ ".".toList
          ++ Nat.toDigits 10 (c % 256) ++ ".".toList ++ Nat.toDigits 10 (d % 256) := by
    simp [fmt_pI4, byte_at, List.range_succ, List.intercalate]
  rw [e, Nat.mod_eq_of_lt ha, Nat.mod_eq_of_lt hb, Nat.mod_eq_of_lt hc, Nat.mod_eq_of_lt hd]

/-- C16: for an IPv4 address event on a resolvable device the callback logs
`C: INETADDR DEV: `, the device name, ` EVENT: NETDEV_`, the name of the
event, ` (0x`, the code in hexadecimal, `) ADDR: ` and the four address bytes
in dotted decimal. -/
theorem C16_inetaddr_line (h : Headers) (event : Nat) (dev : net_device) (a b c d : Nat)
    (hev : event < 2 ^ 64) (ha : a < 256) (hb : b < 256) (hc : c < 256) (hd : d < 256) :
    ∃ nm : String,
      nd_event_name h event = some (some nm)
      ∧ (event ≤ ND_END h → (ND_EVENTS h)[event]? = some (some nm))
      ∧ cdbg_inetaddr_event h event ⟨some ⟨some dev⟩, [a, b, c, d]⟩
          = some ⟨NOTIFY_DONE,
              ["C: INETADDR DEV: ".toList ++ dev.name.toList ++ " EVENT: NETDEV_".toList
                ++ nm.toList ++ " (0x".toList ++ Nat.toDigits 16 event ++ ") ADDR: ".toList
                ++ (Nat.toDigits 10 a ++ ".".toList ++ Nat.toDigits 10 b ++ ".".toList
                  ++ Nat.toDigits 10 c ++ ".".toList ++ Nat.toDigits 10 d)
                ++ "\n".toList]⟩ := by
  obtain ⟨nm, hn, htab⟩ := nd_event_name_some h event
  refine ⟨nm, hn, htab, ?_⟩
  rw [← fmt_pI4_eq a b c d ha hb hc hd]
  simp [cdbg_inetaddr_event, hn, fmt_s, fmt_lx_of_lt event hev]

/-- Witness of C16: the address 192.0.2.10 comes up on `eth1`. -/
theorem C16_inetaddr_line_witness :
    ∃ nm : String,
      nd_event_name .changeinfodata 1 = some (some nm)
      ∧ (1 ≤ ND_END .changeinfodata → (ND_EVENTS .changeinfodata)[1]? = some (some nm))
      ∧ cdbg_inetaddr_event .changeinfodata 1
            ⟨some ⟨some ⟨"eth1", 0, 0, 1500, 1, []⟩⟩, [192, 0, 2, 10]⟩
          = some ⟨NOTIFY_DONE,
              ["C: INETADDR DEV: ".toList ++ "eth1".toList ++ " EVENT: NETDEV_".toList
                ++ nm.toList ++ " (0x".toList ++ "1".toList ++ ") ADDR: ".toList
                ++ "192.0.2.10".toList
                ++ "\n".toList]⟩ :=
  C16_inetaddr_line .changeinfodata 1 ⟨"eth1", 0, 0, 1500, 1, []⟩ 192 0 2 10
    (by decide) (by decide) (by decide) (by decide) (by decide)

/-! ## Bits without a name, and the loop bound -/

/-- On a table with a terminator the result of `cdbg_get_strings` depends only
on the bits below both the loop bound and the number of names. -/
theorem get_strings_congr (b1 b2 : Nat) (bitlen : Int) (t : List (Option String))
    (buf : List Char) (buflen : Int) (hterm : none ∈ t)
    (hbits : ∀ i, i < min (to_size_t bitlen % 65) (table_names t).length →
      b1.testBit i = b2.testBit i) :
    cdbg_get_strings b1 bitlen t buf buflen = cdbg_get_strings b2 bitlen t buf buflen := by
  obtain ⟨rest, hr⟩ := table_names_split t hterm
  have e1 := loop_fold b1 (table_names t) rest buflen (to_size_t bitlen % 65) 0 buf
    (Nat.zero_le _)
  have e2 := loop_fold b2 (table_names t) rest buflen (to_size_t bitlen % 65) 0 buf
    (Nat.zero_le _)
  rw [← hr] at e1 e2
  show cdbg_get_strings_loop b1 t buflen (to_size_t bitlen % 65) 0 buf
    = cdbg_get_strings_loop b2 t buflen (to_size_t bitlen % 65) 0 buf
  rw [e1, e2]
  congr 2
  apply List.filter_congr
  intro i hi
  have hi2 := (List.mem_range'_1.1 hi).2
  exact hbits i (by simpa using hi2)

/-- C17: two flags values that agree on bits 0..18 give `NETDEV_CHANGE` lines
that differ in the hexadecimal field only, and two feature values that agree
on the bits below `min NETDEV_FEATURE_COUNT 39` give `NETDEV_FEAT_CHANGE` lines
that differ in the hexadecimal field only; `cdbg_get_strings` returns the same
buffer for both values. -/
theorem C17_unnamed_bits_omitted (h : Headers) (fc : Int) (dev : net_device)
    (f1 f2 g1 g2 : Nat) (hname : dev.name.length < IFNAMSIZ)
    (hf1 : f1 < 2 ^ 32) (hf2 : f2 < 2 ^ 32) (hg1 : g1 < 2 ^ 64) (hg2 : g2 < 2 ^ 64)
    (hfc : 0 ≤ fc)
    (hflags : ∀ i, i < 19 → f1.testBit i = f2.testBit i)
    (hfeat : ∀ i : Nat, (i : Int) < min fc 39 → g1.testBit i = g2.testBit i) :
    (cdbg_netdev_event h fc true NETDEV_CHANGE
          ⟨dev.name, f1, dev.features, dev.mtu, dev.type, dev.dev_addr⟩
        = some ⟨NOTIFY_DONE,
            ["C: NETDEV DEV: ".toList ++ dev.name.toList
              ++ " EVENT: NETDEV_CHANGE (0x4)".toList
              ++ " FLAGS: (0x".toList ++ Nat.toDigits 16 f1 ++ ")".toList
              ++ render_names f1 (min 32 (table_names netdev_flags).length)
                  (table_names netdev_flags)
              ++ "\n".toList]⟩
      ∧ cdbg_netdev_event h fc true NETDEV_CHANGE
          ⟨dev.name, f2, dev.features, dev.mtu, dev.type, dev.dev_addr⟩
        = some ⟨NOTIFY_DONE,
            ["C: NETDEV DEV: ".toList ++ dev.name.toList
              ++ " EVENT: NETDEV_CHANGE (0x4)".toList
              ++ " FLAGS: (0x".toList ++ Nat.toDigits 16 f2 ++ ")".toList
              ++ render_names f1 (min 32 (table_names netdev_flags).length)
                  (table_names netdev_flags)
              ++ "\n".toList]⟩)
      ∧ (cdbg_netdev_event h fc true NETDEV_FEAT_CHANGE
          ⟨dev.name, dev.flags, g1, dev.mtu, dev.type, dev.dev_addr⟩
        = some ⟨NOTIFY_DONE,
            ["C: NETDEV DEV: ".toList ++ dev.name.toList
              ++ " EVENT: NETDEV_FEAT_CHANGE (0xb)".toList
              ++ " FEATURES: (0x".toList ++ Nat.toDigits 16 g1 ++ ")".toList
              ++ render_names g1
                  (min (to_size_t fc % 65) (table_names netdev_features_strings).length)
                  (table_names netdev_features_strings)
              ++ "\n".toList]⟩
      ∧ cdbg_netdev_event h fc true NETDEV_FEAT_CHANGE
          ⟨dev.name, dev.flags, g2, dev.mtu, dev.type, dev.dev_addr⟩
        = some ⟨NOTIFY_DONE,
            ["C: NETDEV DEV: ".toList ++ dev.name.toList
              ++ " EVENT: NETDEV_FEAT_CHANGE (0xb)".toList
              ++ " FEATURES: (0x".toList ++ Nat.toDigits 16 g2 ++ ")".toList
              ++ render_names g1
                  (min (to_size_t fc % 65) (table_names netdev_features_strings).length)
                  (table_names netdev_features_strings)
              ++ "\n".toList]⟩)
      ∧ (∀ (buf : List Char) (buflen : Int),
          cdbg_get_strings f1 (4 * 8) netdev_flags buf buflen
              = cdbg_get_strings f2 (4 * 8) netdev_flags buf buflen
            ∧ cdbg_get_strings g1 fc netdev_features_strings buf buflen
              = cdbg_get_strings g2 fc netdev_features_strings buf buflen) := by
  have hflags2 : ∀ i, i < min 32 (table_names netdev_flags).length →
      f1.testBit i = f2.testBit i := by
    intro i hi
    rw [table_names_flags_length] at hi
    exact hflags i (by omega)
  have hfeat2 : ∀ i, i < min (to_size_t fc % 65) (table_names netdev_features_strings).length →
      g1.testBit i = g2.testBit i := by
    intro i hi
    rw [table_names_features_length] at hi
    apply hfeat i
    unfold to_size_t at hi
    omega
  have hnc : nd_event_name h NETDEV_CHANGE = some (some "CHANGE") := by
    cases h <;> rfl
  have hnf : nd_event_name h NETDEV_FEAT_CHANGE = some (some "FEAT_CHANGE") := by
    cases h <;> rfl
  have hxc : fmt_lx NETDEV_CHANGE = ['4'] := by decide
  have hxf : fmt_lx NETDEV_FEAT_CHANGE = ['b'] := by decide
  have hflag : ∀ f : Nat, f < 2 ^ 32 →
      cdbg_netdev_event h fc true NETDEV_CHANGE
          ⟨dev.name, f, dev.features, dev.mtu, dev.type, dev.dev_addr⟩
        = some ⟨NOTIFY_DONE,
            ["C: NETDEV DEV: ".toList ++ dev.name.toList
              ++ " EVENT: NETDEV_CHANGE (0x4)".toList
              ++ " FLAGS: (0x".toList ++ Nat.toDigits 16 f ++ ")".toList
              ++ render_names f (min 32 (table_names netdev_flags).length)
                  (table_names netdev_flags)
              ++ "\n".toList]⟩ :=
    fun f hf => by
      rw [netdev_event_of_tail h fc NETDEV_CHANGE
        ⟨dev.name, f, dev.features, dev.mtu, dev.type, dev.dev_addr⟩ "CHANGE" _ hnc hname
        (fun buf hbuf => netdev_switch_change h fc _ buf nd_buflen (by rw [nd_buflen_eq]) hbuf)]
      simp [netdev_fmt, fmt_s, hxc, fmt_x_of_lt f hf]
  have hfe : ∀ g : Nat, g < 2 ^ 64 →
      cdbg_netdev_event h fc true NETDEV_FEAT_CHANGE
          ⟨dev.name, dev.flags, g, dev.mtu, dev.type, dev.dev_addr⟩
        = some ⟨NOTIFY_DONE,
            ["C: NETDEV DEV: ".toList ++ dev.name.toList
              ++ " EVENT: NETDEV_FEAT_CHANGE (0xb)".toList
              ++ " FEATURES: (0x".toList ++ Nat.toDigits 16 g ++ ")".toList
              ++ render_names g
                  (min (to_size_t fc % 65) (table_names netdev_features_strings).length)
                  (table_names netdev_features_strings)
              ++ "\n".toList]⟩ :=
    fun g hg => by
      rw [netdev_event_of_tail h fc NETDEV_FEAT_CHANGE
        ⟨dev.name, dev.flags, g, dev.mtu, dev.type, dev.dev_addr⟩ "FEAT_CHANGE" _ hnf hname
        (fun buf hbuf => netdev_switch_feat h fc _ buf nd_buflen (by rw [nd_buflen_eq]) hbuf)]
      have hm : g % 18446744073709551616 = g := Nat.mod_eq_of_lt hg
      simp [netdev_fmt, fmt_s, hxf, fmt_llx, hm]
  refine ⟨⟨hflag f1 hf1, ?_⟩, ⟨hfe g1 hg1, ?_⟩, fun buf buflen => ⟨?_, ?_⟩⟩
  · rw [hflag f2 hf2, render_names_congr f1 f2 _ _ hflags2]
  · rw [hfe g2 hg2, render_names_congr g1 g2 _ _ hfeat2]
  · exact get_strings_congr f1 f2 (4 * 8) netdev_flags buf buflen (by decide)
      (fun i hi => hflags2 i hi)
  · exact get_strings_congr g1 g2 fc netdev_features_strings buf buflen (by decide) hfeat2

/-- Witness of C17: flags that differ in bit 20 and features that differ in
bit 50, decoded into a buffer of 64 bytes. -/
theorem C17_unnamed_bits_omitted_witness :
    cdbg_get_strings 0x1043 (4 * 8) netdev_flags ['x'] 64
        = cdbg_get_strings 0x101043 (4 * 8) netdev_flags ['x'] 64
      ∧ cdbg_get_strings 0x5 64 netdev_features_strings ['x'] 64
        = cdbg_get_strings 0x4000000000005 64 netdev_features_strings ['x'] 64 :=
  (C17_unnamed_bits_omitted .changeinfodata 64 ⟨"eth0", 0, 0, 1500, 1, []⟩
    0x1043 0x101043 0x5 0x4000000000005 (by decide) (by decide) (by decide) (by decide)
    (by decide) (by decide) (by decide)
    (by
      intro i hi
      have hi2 : i < 39 := by omega
      interval_cases i <;> decide)).2.2 ['x'] 64

/-- The shift counts of the loop lie below the final value of its counter. -/
theorem shifts_lt (strings : List (Option String)) :
    ∀ (n i0 : Nat), ∀ i ∈ cdbg_get_strings_shifts strings n i0, i < i0 + n := by
  intro n
  induction n with
  | zero => intro i0 i hi; simp [cdbg_get_strings_shifts] at hi
  | succ n ih =>
    intro i0 i hi
    unfold cdbg_get_strings_shifts at hi
    split at hi
    · simp at hi
    · simp at hi
    · rcases List.mem_cons.1 hi with h | h
      · omega
      · have := ih (i0 + 1) i h
        omega

/-- The loop performs its `snprintf` calls at the shift counts whose bit is
set: the trace `cdbg_get_strings_shifts` follows the loop. -/
theorem loop_follows_shifts (bits : Nat) (strings : List (Option String)) (buflen : Int) :
    ∀ (n i : Nat) (buf r : List Char),
      cdbg_get_strings_loop bits strings buflen n i buf = some r →
      r = ((cdbg_get_strings_shifts strings n i).filter fun j => bits.testBit j).foldl
          (fun b j => snprintf b buflen (b ++ ' ' :: fmt_s (strings.getD j none))) buf := by
  intro n
  induction n with
  | zero =>
    intro i buf r hr
    simp only [cdbg_get_strings_loop, Option.some.injEq] at hr
    simp [cdbg_get_strings_shifts, hr]
  | succ n ih =>
    intro i buf r hr
    unfold cdbg_get_strings_loop at hr
    unfold cdbg_get_strings_shifts
    cases hget : strings[i]? with
    | none => rw [hget] at hr; simp at hr
    | some o =>
      cases o with
      | none =>
        rw [hget] at hr
        simp only [Option.some.injEq] at hr
        simp [hr]
      | some s =>
        rw [hget] at hr
        simp only [] at hr
        have hD : fmt_s (strings.getD i none) = s.toList := by
          simp [List.getD_eq_getElem?_getD, hget, fmt_s]
        rw [ih (i + 1) _ r hr]
        simp only [List.filter_cons]
        by_cases hb : bits.testBit i = true
        · rw [if_pos ((bit_test_iff bits i).2 hb), if_pos hb, List.foldl_cons, hD]
        · rw [if_neg (fun hc => hb ((bit_test_iff bits i).1 hc)), if_neg hb]

/-- C18: for `0 ≤ bitlen ≤ 64` the loop bound `bitlen % 65` is `bitlen` and
`cdbg_get_strings` is the reference renderer that scans the positions below
`min bitlen tableLength`; and whatever the bit width and the table, every shift
`bits >> i` of the loop has `i < 64`. -/
theorem C18_width_up_to_64 (bits : Nat) (bitlen : Int) (names : List String)
    (rest : List (Option String)) (buf : List Char) (buflen : Int)
    (h0 : 0 ≤ bitlen) (h1 : bitlen ≤ 64) (hb : (buf.length : Int) < buflen) :
    to_size_t bitlen % (8 * 8 + 1) = bitlen.toNat
      ∧ cdbg_get_strings bits bitlen (names.map some ++ none :: rest) buf buflen
          = some ((buf ++ render_names bits (min bitlen.toNat names.length) names).take
              (buflen - 1).toNat)
      ∧ (∀ (t : List (Option String)) (w : Int),
          ∀ i ∈ cdbg_get_strings_shifts t (to_size_t w % (8 * 8 + 1)) 0, i < 64) := by
  have hw : to_size_t bitlen % 65 = bitlen.toNat := by
    rw [to_size_t_of_nonneg bitlen h0 (by omega)]
    omega
  refine ⟨hw, ?_, ?_⟩
  · rw [get_strings_terminated bits bitlen names rest buf buflen hb, hw]
  · intro t w i hi
    have h2 := shifts_lt t _ 0 i hi
    have h3 : to_size_t w % (8 * 8 + 1) < 8 * 8 + 1 := Nat.mod_lt _ (by decide)
    omega

/-- Witness of C18: the call site for the interface flags, with width 32. -/
theorem C18_width_up_to_64_witness :
    to_size_t 32 % (8 * 8 + 1) = (32 : Int).toNat
      ∧ cdbg_get_strings 0x1043 32 (["IFF_UP", "IFF_BROADCAST"].map some ++ none :: []) [] 1408
          = some (([] ++ render_names 0x1043 (min (32 : Int).toNat
              ["IFF_UP", "IFF_BROADCAST"].length) ["IFF_UP", "IFF_BROADCAST"]).take
              ((1408 : Int) - 1).toNat) :=
  ⟨(C18_width_up_to_64 0x1043 32 ["IFF_UP", "IFF_BROADCAST"] [] [] 1408
      (by decide) (by decide) (by decide)).1,
   (C18_width_up_to_64 0x1043 32 ["IFF_UP", "IFF_BROADCAST"] [] [] 1408
      (by decide) (by decide) (by decide)).2.1⟩

/-! ## Colons in a line -/

theorem digitChar_ne_colon (n : Nat) (h : n < 16) : Nat.digitChar n ≠ ':' := by
  interval_cases n <;> decide

theorem toDigitsCore_no_colon (b : Nat) (hb0 : 0 < b) (hb : b ≤ 16) :
    ∀ (fuel n : Nat) (ds : List Char),
    ':' ∉ ds → ':' ∉ Nat.toDigitsCore b fuel n ds := by
  intro fuel
  induction fuel with
  | zero => intro n ds h; simpa [Nat.toDigitsCore] using h
  | succ fuel ih =>
    intro n ds h
    unfold Nat.toDigitsCore
    have hd : ':' ∉ Nat.digitChar (n % b) :: ds := by
      intro hc
      rcases List.mem_cons.1 hc with h1 | h1
      · exact digitChar_ne_colon _ (lt_of_lt_of_le (Nat.mod_lt _ hb0) hb) h1.symm
      · exact h h1
    simp only []
    split_ifs
    · exact hd
    · exact ih _ _ hd

/-- The digits of a number in a base up to 16 hold no colon. -/
theorem toDigits_no_colon (b n : Nat) (hb0 : 0 < b) (hb : b ≤ 16) :
    ':' ∉ Nat.toDigits b n := by
  unfold Nat.toDigits
  exact toDigitsCore_no_colon b hb0 hb _ _ _ (by simp)

theorem fmt_lx_no_colon (v : Nat) : ':' ∉ fmt_lx v :=
  toDigits_no_colon 16 _ (by decide) (by decide)

theorem fmt_x_no_colon (v : Nat) : ':' ∉ fmt_x v :=
  toDigits_no_colon 16 _ (by decide) (by decide)

theorem fmt_llx_no_colon (v : Nat) : ':' ∉ fmt_llx v :=
  toDigits_no_colon 16 _ (by decide) (by decide)

theorem fmt_d_no_colon (v : Int) : ':' ∉ fmt_d v := by
  unfold fmt_d
  simp only []
  split_ifs
  · exact toDigits_no_colon 10 _ (by decide) (by decide)
  · intro hc
    rcases List.mem_cons.1 hc with h1 | h1
    · exact absurd h1 (by decide)
    · exact toDigits_no_colon 10 _ (by decide) (by decide) h1

theorem hex_byte_no_colon (b : Nat) : ':' ∉ hex_byte b := by
  unfold hex_byte
  intro hc
  simp only [List.mem_cons, List.mem_singleton, List.not_mem_nil, or_false] at hc
  rcases hc with h1 | h1
  · exact digitChar_ne_colon _ (Nat.mod_lt _ (by decide)) h1.symm
  · exact digitChar_ne_colon _ (Nat.mod_lt _ (by decide)) h1.symm

/-- The event names hold no colon. -/
theorem nd_event_name_no_colon (h : Headers) (event : Nat) (nm : String)
    (hn : nd_event_name h event = some (some nm)) : ':' ∉ nm.toList := by
  have hall : ∀ x ∈ ND_EVENTS h, ':' ∉ fmt_s x := by
    cases h <;> decide
  unfold nd_event_name at hn
  split at hn
  · cases hn
    decide
  · exact hall (some nm) (List.getElem?_mem hn)

/-- The names a colon-free table renders hold no colon. -/
theorem render_names_no_colon (bits bound : Nat) (names : List String)
    (hnames : ∀ s ∈ names, ':' ∉ s.toList) : ':' ∉ render_names bits bound names := by
  unfold render_names
  intro hc
  obtain ⟨i, -, hi⟩ := List.mem_flatMap.1 hc
  rcases List.mem_cons.1 hi with h1 | h1
  · exact absurd h1 (by decide)
  · rw [List.getD_eq_getElem?_getD] at h1
    cases hget : names[i]? with
    | none => rw [hget] at h1; simp at h1
    | some s =>
      rw [hget] at h1
      exact hnames s (List.getElem?_mem hget) h1

theorem table_names_no_colon :
    (∀ s ∈ table_names netdev_flags, ':' ∉ s.toList)
      ∧ (∀ s ∈ table_names netdev_features_strings, ':' ∉ s.toList) := by
  constructor <;> decide

/-- The text before the first colon of a list is determined. -/
theorem first_colon_unique : ∀ (A C P Q : List Char), ':' ∉ A → ':' ∉ C →
    A ++ ':' :: P = C ++ ':' :: Q → A = C := by
  intro A
  induction A with
  | nil =>
    intro C P Q _ hC h
    cases C with
    | nil => rfl
    | cons c C =>
      simp only [List.nil_append, List.cons_append, List.cons.injEq] at h
      exact absurd (by simp [← h.1]) hC
  | cons a A ih =>
    intro C P Q hA hC h
    cases C with
    | nil =>
      simp only [List.nil_append, List.cons_append, List.cons.injEq] at h
      exact absurd (by simp [h.1]) hA
    | cons c C =>
      simp only [List.cons_append, List.cons.injEq] at h
      rw [h.1, ih C P Q (fun hc => hA (List.mem_cons_of_mem _ hc))
        (fun hc => hC (List.mem_cons_of_mem _ hc)) h.2]

/-- A text with a colon does not occur in a text without one. -/
theorem infix_no_colon (A B X : List Char) (hX : ':' ∉ X) : ¬ (A ++ ':' :: B) <:+: X := by
  intro h
  exact hX (h.subset (by simp))

/-- An occurrence of `A:B` in `X:Y`, with no colon in `A` and `X`, either ends
`A` where `X` ends or lies in `Y`. -/
theorem infix_colon_peel (A B X Y : List Char) (hA : ':' ∉ A) (hX : ':' ∉ X)
    (h : (A ++ ':' :: B) <:+: (X ++ ':' :: Y)) :
    A <:+ X ∨ (A ++ ':' :: B) <:+: Y := by
  obtain ⟨s, t, hst⟩ := h
  have hst2 : s ++ (A ++ ':' :: (B ++ t)) = X ++ ':' :: Y := by
    rw [← hst]
    simp
  rcases List.append_eq_append_iff.1 hst2 with ⟨a', hX2, hrest⟩ | ⟨c', hs, hrest⟩
  · have hc : ':' ∉ a' := fun hc => hX (by rw [hX2]; exact List.mem_append_right _ hc)
    have := first_colon_unique A a' (B ++ t) Y hA hc hrest
    left
    exact ⟨s, by rw [this, hX2]⟩
  · cases c' with
    | nil =>
      simp only [List.nil_append] at hrest
      cases A with
      | nil => left; exact List.nil_suffix
      | cons a A =>
        simp only [List.cons_append, List.cons.injEq] at hrest
        exact absurd (by simp [← hrest.1]) hA
    | cons c c' =>
      simp only [List.cons_append, List.cons.injEq] at hrest
      right
      exact ⟨c', t, by rw [hrest.2]; simp⟩

/-- No text `A:B` with `A` of four characters or more occurs in `X:Y` when `X`
is shorter and none occurs in `Y`. -/
theorem label_free_cons (X Y : List Char) (hX : ':' ∉ X) (hlen : X.length < 4)
    (hY : ∀ A B : List Char, ':' ∉ A → 4 ≤ A.length → ¬ (A ++ ':' :: B) <:+: Y) :
    ∀ A B : List Char, ':' ∉ A → 4 ≤ A.length →
      ¬ (A ++ ':' :: B) <:+: (X ++ ':' :: Y) := by
  intro A B hA hl h
  rcases infix_colon_peel A B X Y hA hX h with h1 | h1
  · have := h1.length_le
    omega
  · exact hY A B hA hl h1

/-- No label occurs in the hardware address that follows ` MAC:`. -/
theorem label_free_pM (a : List Nat) :
    ∀ A B : List Char, ':' ∉ A → 4 ≤ A.length →
      ¬ (A ++ ':' :: B) <:+: (" ".toList ++ fmt_pM a) := by
  have e : " ".toList ++ fmt_pM a
      = (" ".toList ++ hex_byte (byte_at a 0)) ++ ':' :: (hex_byte (byte_at a 1)
        ++ ':' :: (hex_byte (byte_at a 2) ++ ':' :: (hex_byte (byte_at a 3)
        ++ ':' :: (hex_byte (byte_at a 4) ++ ':' :: hex_byte (byte_at a 5))))) := rfl
  rw [e]
  have hb := hex_byte_no_colon
  have hl : ∀ b, (hex_byte b).length < 4 := fun b => by simp [hex_byte]
  refine label_free_cons _ _ ?_ (by simp [hex_byte]) ?_
  · intro hc
    rcases List.mem_append.1 hc with h1 | h1
    · exact absurd h1 (by decide)
    · exact hb _ h1
  refine label_free_cons _ _ (hb _) (hl _) ?_
  refine label_free_cons _ _ (hb _) (hl _) ?_
  refine label_free_cons _ _ (hb _) (hl _) ?_
  refine label_free_cons _ _ (hb _) (hl _) ?_
  intro A B _ _
  exact infix_no_colon A B _ (hb _)

/-! ## Event name and per-kind field -/

/-- The buffer at `pr_info` for a case of the switch that appends `x`. -/
theorem netdev_line_of_tail (h : Headers) (fc : Int) (event : Nat) (dev : net_device)
    (nm : String) (x : List Char)
    (hn : nd_event_name h event = some (some nm)) (hname : dev.name.length < IFNAMSIZ)
    (hsw : ∀ buf : List Char, buf.length ≤ 82 →
      netdev_switch h fc event dev buf nd_buflen = some (buf ++ x)) :
    netdev_line h fc event dev = some (netdev_fmt dev.name (some nm) event ++ x) := by
  obtain ⟨hhead, hlen⟩ := netdev_head_eq h event dev _ hn hname
  unfold netdev_line
  rw [hhead]
  exact hsw _ hlen

/-- The field each case of the switch appends to the always-present fields:
nothing, or one of the labels of `field_labels`, a colon and a text in which no
label occurs, the name printed being the one of `field_names`. -/
theorem netdev_tail_shape (h : Headers) (fc : Int) (event : Nat) (dev : net_device)
    (hname : dev.name.length < IFNAMSIZ) :
    ∃ (nm : String) (tail : List Char),
      nd_event_name h event = some (some nm)
      ∧ netdev_line h fc event dev = some (netdev_fmt dev.name (some nm) event ++ tail)
      ∧ (tail = [] ∨ ∃ (j : Nat) (T1 : List Char), j < 7
          ∧ tail = field_labels.getD j [] ++ ':' :: T1
          ∧ nm = field_names.getD j ""
          ∧ ∀ A B : List Char, ':' ∉ A → 4 ≤ A.length → ¬ (A ++ ':' :: B) <:+: T1)
      ∧ (" MAC: ".toList <+: tail ↔ event = 8 ∧ nm = "CHANGEADDR")
      ∧ (" NEW MTU: ".toList <+: tail ↔ event = 7 ∧ nm = "CHANGEMTU")
      ∧ (" OLD MTU: ".toList <+: tail
          ↔ defined_PRECHANGEMTU h = true ∧ event = 23 ∧ nm = "PRECHANGEMTU")
      ∧ (" OLD TYPE: ".toList <+: tail ↔ event = 14 ∧ nm = "PRE_TYPE_CHANGE")
      ∧ (" NEW TYPE: ".toList <+: tail ↔ event = 15 ∧ nm = "POST_TYPE_CHANGE")
      ∧ (" FLAGS: ".toList <+: tail ↔ event = 4 ∧ nm = "CHANGE")
      ∧ (" FEATURES: ".toList <+: tail ↔ event = 11 ∧ nm = "FEAT_CHANGE") := by
  have hs : (1408 : Int) ≤ nd_buflen := by rw [nd_buflen_eq]
  by_cases c1 : event = 8
  · subst c1
    have hn : nd_event_name h 8 = some (some "CHANGEADDR") := by cases h <;> rfl
    have hl : (" MAC: ".toList ++ fmt_pM dev.dev_addr).length ≤ 64 := by
      rw [List.length_append, fmt_pM_length]
      decide
    refine ⟨_, " MAC: ".toList ++ fmt_pM dev.dev_addr, hn,
      netdev_line_of_tail h fc 8 dev _ _ hn hname (fun buf hb => ?_), ?_, ?_⟩
    · unfold netdev_switch
      rw [if_pos (show 8 = NETDEV_CHANGEADDR from rfl), List.append_assoc,
        snprintf_small _ _ _ hs hb hl]
    · exact Or.inr ⟨0, " ".toList ++ fmt_pM dev.dev_addr, by decide, rfl, rfl,
        label_free_pM dev.dev_addr⟩
    · simp
  by_cases c2 : event = 7
  · subst c2
    have hn : nd_event_name h 7 = some (some "CHANGEMTU") := by cases h <;> rfl
    have hl : (" NEW MTU: ".toList ++ fmt_d dev.mtu).length ≤ 64 := by
      have e1 : (" NEW MTU: ".toList).length = 10 := rfl
      have := fmt_d_length dev.mtu
      rw [List.length_append, e1]
      omega
    refine ⟨_, " NEW MTU: ".toList ++ fmt_d dev.mtu, hn,
      netdev_line_of_tail h fc 7 dev _ _ hn hname (fun buf hb => ?_), ?_, ?_⟩
    · rw [← snprintf_small _ _ _ hs hb hl]
      simp [netdev_switch, NETDEV_CHANGEADDR, NETDEV_CHANGEMTU]
    · exact Or.inr ⟨1, " ".toList ++ fmt_d dev.mtu, by decide, rfl, rfl,
        fun A B _ _ => infix_no_colon A B _ (by simp [fmt_d_no_colon])⟩
    · simp
  by_cases c3 : defined_PRECHANGEMTU h = true ∧ event = 23
  · obtain ⟨hdef, c3⟩ := c3
    subst c3
    have hn : nd_event_name h 23 = some (some "PRECHANGEMTU") := by
      cases h
      · exact absurd hdef (by decide)
      · rfl
      · rfl
    have hl : (" OLD MTU: ".toList ++ fmt_d dev.mtu).length ≤ 64 := by
      have e1 : (" OLD MTU: ".toList).length = 10 := rfl
      have := fmt_d_length dev.mtu
      rw [List.length_append, e1]
      omega
    refine ⟨_, " OLD MTU: ".toList ++ fmt_d dev.mtu, hn,
      netdev_line_of_tail h fc 23 dev _ _ hn hname (fun buf hb => ?_), ?_, ?_⟩
    · rw [← snprintf_small _ _ _ hs hb hl]
      simp [netdev_switch, NETDEV_CHANGEADDR, NETDEV_CHANGEMTU, NETDEV_PRECHANGEMTU, hdef]
    · exact Or.inr ⟨2, " ".toList ++ fmt_d dev.mtu, by decide, rfl, rfl,
        fun A B _ _ => infix_no_colon A B _ (by simp [fmt_d_no_colon])⟩
    · simp [hdef]
  by_cases c4 : event = 14
  · subst c4
    have hn : nd_event_name h 14 = some (some "PRE_TYPE_CHANGE") := by cases h <;> rfl
    have hl : (" OLD TYPE: 0x".toList ++ fmt_x dev.type).length ≤ 64 := by
      have e1 : (" OLD TYPE: 0x".toList).length = 13 := rfl
      have := fmt_x_length dev.type
      rw [List.length_append, e1]
      omega
    refine ⟨_, " OLD TYPE: 0x".toList ++ fmt_x dev.type, hn,
      netdev_line_of_tail h fc 14 dev _ _ hn hname (fun buf hb => ?_), ?_, ?_⟩
    · rw [← snprintf_small _ _ _ hs hb hl]
      simp [netdev_switch, NETDEV_CHANGEADDR, NETDEV_CHANGEMTU, NETDEV_PRECHANGEMTU,
        NETDEV_PRE_TYPE_CHANGE, NETDEV_POST_TYPE_CHANGE]
    · exact Or.inr ⟨3, " 0x".toList ++ fmt_x dev.type, by decide, rfl, rfl,
        fun A B _ _ => infix_no_colon A B _ (by simp [fmt_x_no_colon])⟩
    · simp
  by_cases c5 : event = 15
  · subst c5
    have hn : nd_event_name h 15 = some (some "POST_TYPE_CHANGE") := by cases h <;> rfl
    have hl : (" NEW TYPE: 0x".toList ++ fmt_x dev.type).length ≤ 64 := by
      have e1 : (" NEW TYPE: 0x".toList).length = 13 := rfl
      have := fmt_x_length dev.type
      rw [List.length_append, e1]
      omega
    refine ⟨_, " NEW TYPE: 0x".toList ++ fmt_x dev.type, hn,
      netdev_line_of_tail h fc 15 dev _ _ hn hname (fun buf hb => ?_), ?_, ?_⟩
    · rw [← snprintf_small _ _ _ hs hb hl]
      simp [netdev_switch, NETDEV_CHANGEADDR, NETDEV_CHANGEMTU, NETDEV_PRECHANGEMTU,
        NETDEV_PRE_TYPE_CHANGE, NETDEV_POST_TYPE_CHANGE]
    · exact Or.inr ⟨4, " 0x".toList ++ fmt_x dev.type, by decide, rfl, rfl,
        fun A B _ _ => infix_no_colon A B _ (by simp [fmt_x_no_colon])⟩
    · simp
  by_cases c6 : event = 4
  · subst c6
    have hn : nd_event_name h 4 = some (some "CHANGE") := by cases h <;> rfl
    refine ⟨_, _, hn, netdev_line_of_tail h fc 4 dev _ _ hn hname
      (fun buf hb => netdev_switch_change h fc dev buf nd_buflen hs hb), ?_, ?_⟩
    · refine Or.inr ⟨5, " (0x".toList ++ fmt_x dev.flags ++ ")".toList
        ++ render_names dev.flags (min 32 (table_names netdev_flags).length)
            (table_names netdev_flags), by decide, by simp [field_labels], rfl,
        fun A B _ _ => infix_no_colon A B _ ?_⟩
      have h1 := fmt_x_no_colon dev.flags
      have h2 := render_names_no_colon dev.flags (min 32 (table_names netdev_flags).length)
        (table_names netdev_flags) table_names_no_colon.1
      simp [h1, h2]
    · simp
  by_cases c7 : event = 11
  · subst c7
    have hn : nd_event_name h 11 = some (some "FEAT_CHANGE") := by cases h <;> rfl
    refine ⟨_, _, hn, netdev_line_of_tail h fc 11 dev _ _ hn hname
      (fun buf hb => netdev_switch_feat h fc dev buf nd_buflen hs hb), ?_, ?_⟩
    · refine Or.inr ⟨6, " (0x".toList ++ fmt_llx (dev.features % 2 ^ 64) ++ ")".toList
        ++ render_names (dev.features % 2 ^ 64)
            (min (to_size_t fc % 65) (table_names netdev_features_strings).length)
            (table_names netdev_features_strings), by decide, by simp [field_labels], rfl,
        fun A B _ _ => infix_no_colon A B _ ?_⟩
      have h1 := fmt_llx_no_colon (dev.features % 2 ^ 64)
      have h2 := render_names_no_colon (dev.features % 2 ^ 64)
        (min (to_size_t fc % 65) (table_names netdev_features_strings).length)
        (table_names netdev_features_strings) table_names_no_colon.2
      generalize dev.features % 2 ^ 64 = g at h1 h2 ⊢
      simp [h1, h2]
    · simp
  · obtain ⟨nm, hn, -⟩ := nd_event_name_some h event
    refine ⟨nm, [], hn, netdev_line_of_tail h fc event dev _ _ hn hname (fun buf hb => ?_),
      Or.inl rfl, ?_⟩
    · rw [List.append_nil]
      exact netdev_switch_default h fc event dev buf nd_buflen c1 c2
        (fun c => c3 c) c4 c5 c6 c7
    · simp [c1, c2, c4, c5, c6, c7]
      intro hd he
      exact absurd ⟨hd, he⟩ c3


theorem field_labels_facts :
    (∀ A ∈ field_labels, ':' ∉ A ∧ 4 ≤ A.length ∧ ¬ A <:+ "C".toList
        ∧ ¬ A <:+ " NETDEV DEV".toList ∧ ¬ A <:+ " EVENT".toList ∧ ¬ " EVENT".toList <:+ A)
      ∧ (∀ i, i < 7 → ∀ j, j < 7 →
          (field_labels.getD i [] <:+ field_labels.getD j []
            ∨ field_labels.getD j [] <:+ field_labels.getD i []) → i = j)
      ∧ (∀ i, i < 7 → field_labels.getD i [] ∈ field_labels) := by
  decide

/-- An occurrence of a label and its colon in a line lies after the
always-present fields up to `EVENT:`, when the device name holds no colon. -/
theorem infix_line_rest (A B : List Char) (hAm : A ∈ field_labels) (name nm : String)
    (event : Nat) (tail : List Char) (hname : ':' ∉ name.toList)
    (h : (A ++ ':' :: B) <:+: netdev_fmt name (some nm) event ++ tail) :
    (A ++ ':' :: B) <:+: (" NETDEV_".toList ++ nm.toList ++ " (0x".toList ++ fmt_lx event
      ++ ")".toList) ++ tail := by
  obtain ⟨hA, hlen, f1, f2, f3, f4⟩ := field_labels_facts.1 A hAm
  have e : netdev_fmt name (some nm) event ++ tail
      = "C".toList ++ ':' :: (" NETDEV DEV".toList ++ ':' ::
          ((" ".toList ++ name.toList ++ " EVENT".toList) ++ ':' ::
            ((" NETDEV_".toList ++ nm.toList ++ " (0x".toList ++ fmt_lx event
              ++ ")".toList) ++ tail))) := by
    simp [netdev_fmt, fmt_s]
  rw [e] at h
  rcases infix_colon_peel A B _ _ hA (by decide) h with h1 | h1
  · exact absurd h1 f1
  rcases infix_colon_peel A B _ _ hA (by decide) h1 with h2 | h2
  · exact absurd h2 f2
  have hname2 : ':' ∉ name.data := hname
  rcases infix_colon_peel A B _ _ hA (by simp [hname2]) h2 with h3 | h3
  · rcases List.suffix_or_suffix_of_suffix h3
        (List.suffix_append (" ".toList ++ name.toList) " EVENT".toList) with h4 | h4
    · exact absurd h4 f3
    · exact absurd h4 f4
  · exact h3

/-- A line holds a label and its colon only with the name of the event that
prints it, when the device name holds no colon. -/
theorem label_only_with_name (h : Headers) (event : Nat) (name nm : String)
    (tail : List Char) (hn : nd_event_name h event = some (some nm))
    (hshape : tail = [] ∨ ∃ (j : Nat) (T1 : List Char), j < 7
      ∧ tail = field_labels.getD j [] ++ ':' :: T1
      ∧ nm = field_names.getD j ""
      ∧ ∀ A B : List Char, ':' ∉ A → 4 ≤ A.length → ¬ (A ++ ':' :: B) <:+: T1)
    (hcolon : ':' ∉ name.toList) (i : Nat) (hi : i < 7) (B : List Char)
    (hin : (field_labels.getD i [] ++ ':' :: B) <:+: netdev_fmt name (some nm) event ++ tail) :
    nm = field_names.getD i "" := by
  have hmem := field_labels_facts.2.2 i hi
  obtain ⟨hA, hlen, -⟩ := field_labels_facts.1 _ hmem
  have h1 := infix_line_rest _ B hmem name nm event tail hcolon hin
  have hR : ':' ∉ " NETDEV_".toList ++ nm.toList ++ " (0x".toList ++ fmt_lx event
      ++ ")".toList := by
    have a1 : ':' ∉ nm.data := nd_event_name_no_colon h event nm hn
    have a2 := fmt_lx_no_colon event
    simp [a1, a2]
  rcases hshape with ht | ⟨j, T1, hj, ht, hnm, hfree⟩
  · rw [ht, List.append_nil] at h1
    exact absurd h1 (infix_no_colon _ _ _ hR)
  · rw [ht, ← List.append_assoc] at h1
    have hmemj := field_labels_facts.2.2 j hj
    obtain ⟨hAj, -⟩ := field_labels_facts.1 _ hmemj
    rcases infix_colon_peel _ B _ _ hA (by
        intro hc
        rcases List.mem_append.1 hc with h2 | h2
        · exact hR h2
        · exact hAj h2) h1 with h2 | h2
    · have := field_labels_facts.2.1 i hi j hj
        (List.suffix_or_suffix_of_suffix h2 (List.suffix_append _ _))
      rw [hnm, this]
    · exact absurd h2 (hfree _ B hA hlen)

/-- C19: `ND_EVENTS` holds at each case label of the switch the name of that
constant; the field that `cdbg_netdev_event` appends to the always-present
fields begins with ` MAC: `, ` NEW MTU: `, ` OLD MTU: `, ` OLD TYPE: `,
` NEW TYPE: `, ` FLAGS: ` or ` FEATURES: ` exactly when the event is the
matching constant, in which case the name printed is `CHANGEADDR`,
`CHANGEMTU`, `PRECHANGEMTU`, `PRE_TYPE_CHANGE`, `POST_TYPE_CHANGE`, `CHANGE`
or `FEAT_CHANGE`; and for a device name without a colon the line contains one
of these labels only with that name. -/
theorem C19_name_matches_field (h : Headers) (fc : Int) (event : Nat) (dev : net_device)
    (hname : dev.name.length < IFNAMSIZ) :
    ((ND_EVENTS h)[4]? = some (some "CHANGE")
        ∧ (ND_EVENTS h)[7]? = some (some "CHANGEMTU")
        ∧ (ND_EVENTS h)[8]? = some (some "CHANGEADDR")
        ∧ (ND_EVENTS h)[11]? = some (some "FEAT_CHANGE")
        ∧ (ND_EVENTS h)[14]? = some (some "PRE_TYPE_CHANGE")
        ∧ (ND_EVENTS h)[15]? = some (some "POST_TYPE_CHANGE")
        ∧ (defined_PRECHANGEMTU h = true → (ND_EVENTS h)[23]? = some (some "PRECHANGEMTU")))
      ∧ ∃ (nm : String) (tail : List Char),
          nd_event_name h event = some (some nm)
          ∧ netdev_line h fc event dev = some (netdev_fmt dev.name (some nm) event ++ tail)
          ∧ (" MAC: ".toList <+: tail ↔ event = 8 ∧ nm = "CHANGEADDR")
          ∧ (" NEW MTU: ".toList <+: tail ↔ event = 7 ∧ nm = "CHANGEMTU")
          ∧ (" OLD MTU: ".toList <+: tail
              ↔ defined_PRECHANGEMTU h = true ∧ event = 23 ∧ nm = "PRECHANGEMTU")
          ∧ (" OLD TYPE: ".toList <+: tail ↔ event = 14 ∧ nm = "PRE_TYPE_CHANGE")
          ∧ (" NEW TYPE: ".toList <+: tail ↔ event = 15 ∧ nm = "POST_TYPE_CHANGE")
          ∧ (" FLAGS: ".toList <+: tail ↔ event = 4 ∧ nm = "CHANGE")
          ∧ (" FEATURES: ".toList <+: tail ↔ event = 11 ∧ nm = "FEAT_CHANGE")
          ∧ (':' ∉ dev.name.toList →
              (" MAC: ".toList <:+: netdev_fmt dev.name (some nm) event ++ tail
                  → nm = "CHANGEADDR")
              ∧ (" NEW MTU: ".toList <:+: netdev_fmt dev.name (some nm) event ++ tail
                  → nm = "CHANGEMTU")
              ∧ (" OLD MTU: ".toList <:+: netdev_fmt dev.name (some nm) event ++ tail
                  → nm = "PRECHANGEMTU")
              ∧ (" OLD TYPE: ".toList <:+: netdev_fmt dev.name (some nm) event ++ tail
                  → nm = "PRE_TYPE_CHANGE")
              ∧ (" NEW TYPE: ".toList <:+: netdev_fmt dev.name (some nm) event ++ tail
                  → nm = "POST_TYPE_CHANGE")
              ∧ (" FLAGS: ".toList <:+: netdev_fmt dev.name (some nm) event ++ tail
                  → nm = "CHANGE")
              ∧ (" FEATURES: ".toList <:+: netdev_fmt dev.name (some nm) event ++ tail
                  → nm = "FEAT_CHANGE")) := by
  refine ⟨⟨by cases h <;> rfl, by cases h <;> rfl, by cases h <;> rfl, by cases h <;> rfl,
    by cases h <;> rfl, by cases h <;> rfl, by cases h <;> simp [defined_PRECHANGEMTU] <;> rfl⟩,
    ?_⟩
  obtain ⟨nm, tail, hn, hline, hshape, i1, i2, i3, i4, i5, i6, i7⟩ :=
    netdev_tail_shape h fc event dev hname
  refine ⟨nm, tail, hn, hline, i1, i2, i3, i4, i5, i6, i7, fun hcolon => ?_⟩
  have key := label_only_with_name h event dev.name nm tail hn hshape hcolon
  exact ⟨key 0 (by decide) " ".toList, key 1 (by decide) " ".toList,
    key 2 (by decide) " ".toList, key 3 (by decide) " ".toList, key 4 (by decide) " ".toList,
    key 5 (by decide) " ".toList, key 6 (by decide) " ".toList⟩

/-- Witness of C19: the hardware address changes on `eth0`. -/
theorem C19_name_matches_field_witness :
    ∃ (nm : String) (tail : List Char),
      nd_event_name .changeinfodata 8 = some (some nm)
      ∧ netdev_line .changeinfodata 39 8 ⟨"eth0", 0, 0, 1500, 1, [0, 1, 2, 3, 4, 5]⟩
          = some (netdev_fmt "eth0" (some nm) 8 ++ tail)
      ∧ (" MAC: ".toList <+: tail ↔ 8 = 8 ∧ nm = "CHANGEADDR")
      ∧ (" NEW MTU: ".toList <+: tail ↔ 8 = 7 ∧ nm = "CHANGEMTU")
      ∧ (" OLD MTU: ".toList <+: tail
          ↔ defined_PRECHANGEMTU .changeinfodata = true ∧ 8 = 23 ∧ nm = "PRECHANGEMTU")
      ∧ (" OLD TYPE: ".toList <+: tail ↔ 8 = 14 ∧ nm = "PRE_TYPE_CHANGE")
      ∧ (" NEW TYPE: ".toList <+: tail ↔ 8 = 15 ∧ nm = "POST_TYPE_CHANGE")
      ∧ (" FLAGS: ".toList <+: tail ↔ 8 = 4 ∧ nm = "CHANGE")
      ∧ (" FEATURES: ".toList <+: tail ↔ 8 = 11 ∧ nm = "FEAT_CHANGE")
      ∧ (':' ∉ "eth0".toList →
          (" MAC: ".toList <:+: netdev_fmt "eth0" (some nm) 8 ++ tail
              → nm = "CHANGEADDR")
          ∧ (" NEW MTU: ".toList <:+: netdev_fmt "eth0" (some nm) 8 ++ tail
              → nm = "CHANGEMTU")
          ∧ (" OLD MTU: ".toList <:+: netdev_fmt "eth0" (some nm) 8 ++ tail
              → nm = "PRECHANGEMTU")
          ∧ (" OLD TYPE: ".toList <:+: netdev_fmt "eth0" (some nm) 8 ++ tail
              → nm = "PRE_TYPE_CHANGE")
          ∧ (" NEW TYPE: ".toList <:+: netdev_fmt "eth0" (some nm) 8 ++ tail
              → nm = "POST_TYPE_CHANGE")
          ∧ (" FLAGS: ".toList <:+: netdev_fmt "eth0" (some nm) 8 ++ tail
              → nm = "CHANGE")
          ∧ (" FEATURES: ".toList <:+: netdev_fmt "eth0" (some nm) 8 ++ tail
              → nm = "FEAT_CHANGE")) :=
  (C19_name_matches_field .changeinfodata 39 8 ⟨"eth0", 0, 0, 1500, 1, [0, 1, 2, 3, 4, 5]⟩
    (by decide)).2

end Chaindbg
